import Mathlib

/-!
Verification of the AISCRIPTS documentation-registry tool.

This file shallowly embeds the two Python sources (`src/main.py`,
`src/json_updater.py`) in Lean 4 and proves/refutes the frozen claims
about them.  Python `dict`s (insertion ordered) are modelled as
association lists, JSON values as an inductive type, the file system and
the external chat service as explicit parameters, and exceptions as
`Except`.  All definitions are computable and use structural recursion
(fuel where needed) so that closed instances evaluate by `rfl`/`decide`.
-/

namespace AIScripts

/-- JSON values as produced by Python's `json.loads` (numbers restricted
to integers; none of the inputs considered here contain floats). -/
inductive Json where
  | null : Json
  | bool : Bool → Json
  | num : Int → Json
  | str : String → Json
  | arr : List Json → Json
  | obj : List (String × Json) → Json

/-- Entries of an object; `[]` for non-objects. -/
def Json.entries : Json → List (String × Json)
  | .obj kvs => kvs
  | _ => []

/-- Python `d.get(k)` on an object's entry list (dict keys are unique,
so first match suffices). -/
def lookupKv (kvs : List (String × Json)) (k : String) : Option Json :=
  (kvs.find? (fun pr => pr.1 == k)).map (fun pr => pr.2)

/-- Python `d.get(k, default)`. -/
def objGetD (kvs : List (String × Json)) (k : String) (d : Json) : Json :=
  match kvs.find? (fun pr => pr.1 == k) with
  | some pr => pr.2
  | none => d

/-- `j[k]` lookup through an object, `none` when `j` is not an object or
lacks the key. -/
def Json.get? (j : Json) (k : String) : Option Json :=
  lookupKv j.entries k

/-- Top-level keys of an object. -/
def Json.keys (j : Json) : List String :=
  j.entries.map (fun pr => pr.1)

/-- Python dict assignment `d[k] = v`: replaces in place when the key is
present (keeping its position), else appends. -/
def objSet (kvs : List (String × Json)) (k : String) (v : Json) :
    List (String × Json) :=
  if kvs.any (fun pr => pr.1 == k) then
    kvs.map (fun pr => if pr.1 == k then (k, v) else pr)
  else
    kvs ++ [(k, v)]

/-- Python truthiness of a JSON value (`if not rel_path:`). -/
def jsonFalsy : Json → Bool
  | .null => true
  | .bool b => !b
  | .num i => i == 0
  | .str s => s == ""
  | .arr xs => xs.isEmpty
  | .obj kvs => kvs.isEmpty

/-! ### Character-level utilities (Python `str` operations) -/

/-- Whitespace accepted between JSON tokens by `json.loads`. -/
def isJsonWs (c : Char) : Bool :=
  c == ' ' || c == '\t' || c == '\n' || c == '\r'

/-- Whitespace for Python `str.strip()` and the `\s` regex class
(ASCII part). -/
def isPyWs (c : Char) : Bool :=
  isJsonWs c || c == '\x0b' || c == '\x0c'

/-- Python `str.strip()`. -/
def trimChars (cs : List Char) : List Char :=
  ((cs.dropWhile isPyWs).reverse.dropWhile isPyWs).reverse

/-- Index of the first occurrence of `needle` in `hay`
(Python `str.find` for substrings). -/
def findSub (hay needle : List Char) : Option Nat :=
  match hay with
  | [] => if needle.isEmpty then some 0 else none
  | c :: rest =>
    if needle.isPrefixOf (c :: rest) then some 0
    else (findSub rest needle).map (fun i => i + 1)

/-- Python `needle in hay` on strings (substring test). -/
def hasSubstr (needle hay : List Char) : Bool :=
  (findSub hay needle).isSome

/-- Index of the first occurrence of a character (Python `str.find`). -/
def idxOfC (cs : List Char) (c : Char) : Option Nat :=
  match cs with
  | [] => none
  | x :: rest =>
    if x == c then some 0 else (idxOfC rest c).map (fun i => i + 1)

/-- Index of the last occurrence of a character (Python `str.rfind`). -/
def ridxOfC (cs : List Char) (c : Char) : Option Nat :=
  (idxOfC cs.reverse c).map (fun j => cs.length - 1 - j)

/-! ### A small strict JSON parser (Python `json.loads`)

Fuel-based so that it is structurally recursive and reduces inside the
kernel.  Faithful to `json.loads` on the integer/string/array/object
fragment; floats, `NaN`/`Infinity` and `\uXXXX` surrogate escapes are
rejected (no input in this development contains them). -/

def digitsToNat (ds : List Char) : Nat :=
  ds.foldl (fun a c => a * 10 + (c.toNat - 48)) 0

/-- Parse a JSON integer literal starting at `cs` (first char is `-` or a
digit); rejects floats, exponents and leading zeros like `json.loads`. -/
def parseNum (cs : List Char) : Option (Json × List Char) :=
  let (neg, cs1) := match cs with
    | '-' :: r => (true, r)
    | r => (false, r)
  let ds := cs1.takeWhile Char.isDigit
  let rest := cs1.dropWhile Char.isDigit
  if ds.isEmpty then none
  else if 1 < ds.length && ds.headD ' ' == '0' then none
  else match rest with
    | '.' :: _ => none
    | 'e' :: _ => none
    | 'E' :: _ => none
    | _ =>
      let n : Int := Int.ofNat (digitsToNat ds)
      some (.num (if neg then -n else n), rest)

def hexVal (c : Char) : Option Nat :=
  if c.isDigit then some (c.toNat - 48)
  else if 'a' ≤ c && c ≤ 'f' then some (c.toNat - 87)
  else if 'A' ≤ c && c ≤ 'F' then some (c.toNat - 55)
  else none

/-- Body of a JSON string literal (after the opening quote); returns the
decoded characters and the remainder after the closing quote. -/
def parseStrBody : List Char → Option (List Char × List Char)
  | [] => none
  | '"' :: r => some ([], r)
  | '\\' :: 'u' :: h1 :: h2 :: h3 :: h4 :: r =>
    match hexVal h1, hexVal h2, hexVal h3, hexVal h4 with
    | some a, some b, some c, some d =>
      let n := ((a * 16 + b) * 16 + c) * 16 + d
      if 0xd800 ≤ n && n ≤ 0xdfff then none
      else (parseStrBody r).map (fun p => (Char.ofNat n :: p.1, p.2))
    | _, _, _, _ => none
  | '\\' :: e :: r =>
    let dec : Option Char :=
      if e == '"' then some '"'
      else if e == '\\' then some '\\'
      else if e == '/' then some '/'
      else if e == 'n' then some '\n'
      else if e == 't' then some '\t'
      else if e == 'r' then some '\r'
      else if e == 'b' then some '\x08'
      else if e == 'f' then some '\x0c'
      else none
    match dec with
    | some c => (parseStrBody r).map (fun p => (c :: p.1, p.2))
    | none => none
  | c :: r =>
    if c.toNat < 0x20 then none
    else (parseStrBody r).map (fun p => (c :: p.1, p.2))

/-- Parser modes: a single value, the elements of an array, or the
members of an object (with accumulators). -/
inductive PMode where
  | val : PMode
  | elems : List Json → PMode
  | members : List (String × Json) → PMode

/-- Insert a parsed object member the way Python dicts do: a duplicate
key keeps its first position but takes the last value. -/
def memberInsert (acc : List (String × Json)) (k : String) (v : Json) :
    List (String × Json) :=
  if acc.any (fun pr => pr.1 == k) then
    acc.map (fun pr => if pr.1 == k then (k, v) else pr)
  else acc ++ [(k, v)]

def parseCore : Nat → PMode → List Char → Option (Json × List Char)
  | 0, _, _ => none
  | Nat.succ fuel, .val, cs =>
    match cs.dropWhile isJsonWs with
    | 'n' :: 'u' :: 'l' :: 'l' :: r => some (.null, r)
    | 't' :: 'r' :: 'u' :: 'e' :: r => some (.bool true, r)
    | 'f' :: 'a' :: 'l' :: 's' :: 'e' :: r => some (.bool false, r)
    | '"' :: r => (parseStrBody r).map (fun p => (.str (String.mk p.1), p.2))
    | '[' :: r =>
      match r.dropWhile isJsonWs with
      | ']' :: r2 => some (.arr [], r2)
      | _ => parseCore fuel (.elems []) r
    | '\x7b' :: r =>
      match r.dropWhile isJsonWs with
      | '\x7d' :: r2 => some (.obj [], r2)
      | _ => parseCore fuel (.members []) r
    | c :: r => if c == '-' || c.isDigit then parseNum (c :: r) else none
    | [] => none
  | Nat.succ fuel, .elems acc, cs =>
    match parseCore fuel .val cs with
    | none => none
    | some (v, r) =>
      match r.dropWhile isJsonWs with
      | ',' :: r2 => parseCore fuel (.elems (acc ++ [v])) r2
      | ']' :: r2 => some (.arr (acc ++ [v]), r2)
      | _ => none
  | Nat.succ fuel, .members acc, cs =>
    match cs.dropWhile isJsonWs with
    | '"' :: r =>
      match parseStrBody r with
      | none => none
      | some (kcs, r1) =>
        match r1.dropWhile isJsonWs with
        | ':' :: r2 =>
          match parseCore fuel .val r2 with
          | none => none
          | some (v, r3) =>
            let acc1 := memberInsert acc (String.mk kcs) v
            match r3.dropWhile isJsonWs with
            | ',' :: r4 => parseCore fuel (.members acc1) r4
            | '\x7d' :: r4 => some (.obj acc1, r4)
            | _ => none
        | _ => none
    | _ => none

/-- Python `json.loads` (strict: rejects trailing garbage). -/
def json_loads (s : String) : Option Json :=
  match parseCore (2 * s.data.length + 2) .val s.data with
  | some (v, rest) => if (rest.dropWhile isJsonWs).isEmpty then some v else none
  | none => none

/-! ### `json.dumps(..., indent=2)` -/

def hexDigit (n : Nat) : Char :=
  if n < 10 then Char.ofNat (48 + n) else Char.ofNat (87 + n)

def hex4 (n : Nat) : List Char :=
  [hexDigit (n / 4096 % 16), hexDigit (n / 256 % 16),
   hexDigit (n / 16 % 16), hexDigit (n % 16)]

/-- Escape one character as Python's `json.dumps` does with the default
`ensure_ascii=True` (escape `"`/`\` and everything outside `0x20`-`0x7e`,
with the usual short forms). -/
def escChar (c : Char) : List Char :=
  if c == '"' then ['\\', '"']
  else if c == '\\' then ['\\', '\\']
  else if c == '\n' then ['\\', 'n']
  else if c == '\t' then ['\\', 't']
  else if c == '\r' then ['\\', 'r']
  else if c == '\x08' then ['\\', 'b']
  else if c == '\x0c' then ['\\', 'f']
  else if 0x20 ≤ c.toNat && c.toNat ≤ 0x7e then [c]
  else if c.toNat ≤ 0xffff then '\\' :: 'u' :: hex4 c.toNat
  else
    let v := c.toNat - 0x10000
    ('\\' :: 'u' :: hex4 (0xd800 + v / 0x400)) ++
      ('\\' :: 'u' :: hex4 (0xdc00 + v % 0x400))

def quoteStr (s : String) : String :=
  String.mk ('"' :: s.data.foldr (fun c acc => escChar c ++ acc) ['"'])

def pad (n : Nat) : String := String.mk (List.replicate n ' ')

mutual

/-- `json.dumps(v, indent=2)` at indentation level `ind` spaces. -/
def dumpsV (ind : Nat) : Json → String
  | .null => "null"
  | .bool b => if b then "true" else "false"
  | .num i => toString i
  | .str s => quoteStr s
  | .arr [] => "[]"
  | .arr (x :: xs) =>
    "[\n" ++ pad (ind + 2) ++ dumpsV (ind + 2) x ++
      dumpsElems (ind + 2) xs ++ "\n" ++ pad ind ++ "]"
  | .obj [] => "\x7b\x7d"
  | .obj (m :: ms) =>
    "\x7b\n" ++ pad (ind + 2) ++ quoteStr m.1 ++ ": " ++
      dumpsV (ind + 2) m.2 ++ dumpsMembers (ind + 2) ms ++
      "\n" ++ pad ind ++ "\x7d"

def dumpsElems (ind : Nat) : List Json → String
  | [] => ""
  | x :: xs => ",\n" ++ pad ind ++ dumpsV ind x ++ dumpsElems ind xs

def dumpsMembers (ind : Nat) : List (String × Json) → String
  | [] => ""
  | m :: ms =>
    ",\n" ++ pad ind ++ quoteStr m.1 ++ ": " ++ dumpsV ind m.2 ++
      dumpsMembers ind ms

end

/-- `json.dumps(v, indent=2)`. -/
def json_dumps (v : Json) : String := dumpsV 0 v

/-! ### Paths (`pathlib.PurePosixPath`) -/

/-- Split on `/` (like `str.split("/")`). -/
def splitSlash : List Char → List (List Char)
  | [] => [[]]
  | c :: rest =>
    if c == '/' then [] :: splitSlash rest
    else
      match splitSlash rest with
      | [] => [[c]]
      | h :: t => (c :: h) :: t

def joinSlash : List (List Char) → List Char
  | [] => []
  | [x] => x
  | x :: xs => x ++ '/' :: joinSlash xs

/-- `str(Path(s))` up to pathlib's normalization: empty components are
dropped, a leading `/` is kept. -/
def normPath (s : String) : String :=
  let comps := (splitSlash s.data).filter (fun t => !t.isEmpty)
  String.mk ((if s.data.headD ' ' == '/' then ['/'] else []) ++ joinSlash comps)

/-- `Path(base) / p`: an absolute `p` replaces `base`; joining the empty
string leaves `base` unchanged (pathlib drops empty parts). -/
def pyJoin (base p : String) : String :=
  if p.data.headD ' ' == '/' then normPath p else normPath (base ++ "/" ++ p)

/-- `Path(rel_path).name`: the last nonempty `/`-separated component. -/
def pathName (s : String) : String :=
  String.mk ((((splitSlash s.data).filter (fun t => !t.isEmpty)).getLast?).getD [])

/-! ### `Signature` (src/main.py lines 20-53)

The Python dataclass annotates field types but never enforces them:
`from_dict` stores whatever JSON value the registry file contains.  The
attribute fields are therefore modelled as `Json`. -/

structure Signature where
  category : String
  name : String
  visible : Json := .bool false
  declaration : Json := .str ""
  seemore : Json := .str ""
  seealso : Json := .str ""
  deprecated : Json := .str ""
  last_updated : Json := .str ""
  path : Json := .str ""

/-- `Signature.from_dict` (src/main.py lines 32-47). -/
def Signature.from_dict (category name : String) (props : Json) : Signature :=
  let kvs := match props with
    | .obj kvs => kvs
    | _ => []
  { category := category
    name := name
    visible := objGetD kvs "visible" (.bool false)
    declaration := objGetD kvs "declaration" (.str "")
    seemore := objGetD kvs "seemore" (.str "")
    seealso := objGetD kvs "seealso" (.str "")
    deprecated := objGetD kvs "deprecated" (.str "")
    last_updated := objGetD kvs "last_updated" (.str "")
    path := objGetD kvs "path" (.str "") }

/-- `Signature.to_dict` (src/main.py lines 49-53): `asdict` in dataclass
field order, with `category` and `name` popped. -/
def Signature.to_dict (sig : Signature) : List (String × Json) :=
  [("visible", sig.visible), ("declaration", sig.declaration),
   ("seemore", sig.seemore), ("seealso", sig.seealso),
   ("deprecated", sig.deprecated), ("last_updated", sig.last_updated),
   ("path", sig.path)]

/-- The in-memory registry `JsonSerializer.signatures`
(a Python dict of dicts, insertion ordered). -/
abbrev Registry := List (String × List (String × Signature))

/-- `JsonSerializer.__init__` (src/main.py lines 60-63) computes the path
it will read: it ignores its `json_path` argument and always uses
`Path().cwd() / '_Index.json'`. -/
def JsonSerializer.index_path (cwd : String) (_json_path : String) : String :=
  pyJoin cwd "_Index.json"

/-- `JsonSerializer._load_all_signatures` (src/main.py lines 65-78),
applied to the parsed top-level entries of the registry file: non-object
categories are skipped, null/non-object records are skipped, the rest
become `Signature`s. -/
def load_all_signatures (data : List (String × Json)) : Registry :=
  match data with
  | [] => []
  | (category, entries) :: rest =>
    match entries with
    | .obj es => (category, loadEntries category es) :: load_all_signatures rest
    | _ => load_all_signatures rest
where
  loadEntries (category : String) : List (String × Json) → List (String × Signature)
    | [] => []
    | (name, props) :: rest =>
      match props with
      | .obj kvs => (name, Signature.from_dict category name (.obj kvs)) ::
          loadEntries category rest
      | _ => loadEntries category rest

/-- Category lookup `self.signatures[category]` as an `Option`. -/
def lookupCat (reg : Registry) (c : String) : Option (List (String × Signature)) :=
  (reg.find? (fun pr => pr.1 == c)).map (fun pr => pr.2)

/-- Record lookup `self.signatures[category][name]` as an `Option`. -/
def lookupSig (reg : Registry) (c n : String) : Option Signature :=
  (lookupCat reg c).bind (fun es =>
    (es.find? (fun pr => pr.1 == n)).map (fun pr => pr.2))

/-- `JsonSerializer.get_signature` (src/main.py lines 80-81): plain dict
indexing, so a missing category or name raises `KeyError` (a Python
`LookupError`). -/
def get_signature (reg : Registry) (c n : String) : Except Unit Signature :=
  match lookupSig reg c n with
  | some sig => .ok sig
  | none => .error ()

/-- Replace the record stored at `(c, n)` (in place, keeping positions). -/
def replaceSig (reg : Registry) (c n : String) (sig : Signature) : Registry :=
  reg.map (fun pr =>
    (pr.1, if pr.1 == c then
      pr.2.map (fun qr => (qr.1, if qr.1 == n then sig else qr.2))
    else pr.2))

/-- `JsonSerializer.update_signature_in_memory` (src/main.py lines 83-88):
raises `KeyError` unless `(sig.category, sig.name)` already exists, else
replaces the stored record. -/
def update_signature_in_memory (reg : Registry) (sig : Signature) :
    Except Unit Registry :=
  match lookupCat reg sig.category with
  | none => .error ()
  | some es =>
    if es.any (fun pr => pr.1 == sig.name) then
      .ok (replaceSig reg sig.category sig.name sig)
    else .error ()

/-- The `serialized` dict built by `JsonSerializer.save_to_file`
(src/main.py lines 90-95). -/
def save_serialized (reg : Registry) : Json :=
  .obj (reg.map (fun pr =>
    (pr.1, Json.obj (pr.2.map (fun qr => (qr.1, Json.obj qr.2.to_dict))))))

/-- The text written by `JsonSerializer.save_to_file`
(src/main.py lines 97-100): `json.dumps(serialized, indent=2)`. -/
def save_to_file (reg : Registry) : String :=
  json_dumps (save_serialized reg)

/-! ### `ApiCaller._extract_parts` (src/main.py lines 146-178) -/

/-- How `_extract_parts` can fail, one constructor per `raise` site plus
the `TypeError` Python raises when `in` / indexing is applied to a
non-container element.  The spec's `MalformedResponse` covers `noArray`,
`badShape` and `missingKeys`; its `InvalidJSON` is `invalidJson`. -/
inductive ExtractErr where
  | noArray : ExtractErr      -- "Could not locate JSON array in response"
  | invalidJson : ExtractErr  -- "ChatGPT did not return valid JSON array"
  | badShape : ExtractErr     -- "Expected a JSON array of exactly two objects."
  | missingKeys : ExtractErr  -- "JSON objects must be [...documentation...source...]"
  | typeErr : ExtractErr      -- Python TypeError (non-dict element)
deriving DecidableEq

/-- Which `ExtractErr`s the spec calls `MalformedResponse`. -/
def isMalformedResponse : ExtractErr → Bool
  | .noArray => true
  | .badShape => true
  | .missingKeys => true
  | _ => false

/-- Python `key in v` for a JSON value: key membership for dicts,
substring test for strings, element membership for lists, `TypeError`
otherwise. -/
def pyContains (key : String) : Json → Except Unit Bool
  | .obj kvs => .ok (kvs.any (fun pr => pr.1 == key))
  | .str s => .ok (hasSubstr key.data s.data)
  | .arr xs => .ok (xs.any (fun x => match x with
      | .str t => t == key
      | _ => false))
  | _ => .error ()

/-- Python `v[key]` with a string key: only dicts support it.  `none`
covers both `TypeError` (non-dict) and `KeyError` (absent key; never
reached after a successful `in` check). -/
def pyGetItem (v : Json) (key : String) : Option Json :=
  match v with
  | .obj kvs => lookupKv kvs key
  | _ => none

/-- Step 1 of `_extract_parts`: prefer the content of the first
``` ```json ... ``` ``` fence (`re.search(r"```json\s*(.*?)```", raw,
re.DOTALL)` followed by `.strip()`), else the stripped raw text. -/
def stripFence (raw : String) : List Char :=
  match findSub raw.data "```json".data with
  | some i =>
    let rest := raw.data.drop (i + 7)
    match findSub rest "```".data with
    | some j => trimChars (rest.take j)
    | none => trimChars raw.data
  | none => trimChars raw.data

/-- Step 2 of `_extract_parts`: the substring of the (fence-stripped)
content between the first `[` and the last `]`, or `none` when the scan
fails (`start == -1 or end == -1 or end < start`). -/
def bracketSub (raw : String) : Option String :=
  let content := stripFence raw
  match idxOfC content '[' with
  | none => none
  | some s =>
    match ridxOfC content ']' with
    | none => none
    | some e =>
      if e < s then none
      else some (String.mk ((content.drop s).take (e - s + 1)))

/-- Steps 3-4 of `_extract_parts`: validate the parsed array and pull out
`parsed[0]["documentation"]` and `parsed[1]["source"]` (the `or` in the
Python `if` short-circuits, so a `TypeError` from the first membership
test fires before the second is evaluated). -/
def validateParts : Json → Except ExtractErr (Json × Json)
  | .arr [a, b] =>
    match pyContains "documentation" a with
    | .error _ => .error .typeErr
    | .ok false => .error .missingKeys
    | .ok true =>
      match pyContains "source" b with
      | .error _ => .error .typeErr
      | .ok false => .error .missingKeys
      | .ok true =>
        match pyGetItem a "documentation" with
        | none => .error .typeErr
        | some doc =>
          match pyGetItem b "source" with
          | none => .error .typeErr
          | some src => .ok (doc, src)
  | _ => .error .badShape

/-- Steps 3-4 applied to the bracketed substring: `json.loads` (failure
is the hard error reported as "did not return valid JSON array") then
validation. -/
def extractFromJs (js : String) : Except ExtractErr (Json × Json) :=
  match json_loads js with
  | none => .error .invalidJson
  | some parsed => validateParts parsed

/-- `ApiCaller._extract_parts` (src/main.py lines 146-178). -/
def extract_parts (raw : String) : Except ExtractErr (Json × Json) :=
  match bracketSub raw with
  | none => .error .noArray
  | some js => extractFromJs js

/-! ### `ApiCaller` request building and the external call -/

/-- A chat message (`{"role": ..., "content": ...}`). -/
structure Msg where
  role : String
  content : String
deriving DecidableEq

/-- The request payload of `ApiCaller._build_chat_messages`
(src/main.py lines 122-130). -/
def payloadOf (sig : Signature) : Json :=
  .obj [("declaration", sig.declaration), ("visible", sig.visible),
        ("seemore", sig.seemore), ("seealso", sig.seealso),
        ("deprecated", sig.deprecated), ("last_updated", sig.last_updated),
        ("path", sig.path)]

/-- `ApiCaller._build_chat_messages` (src/main.py lines 118-137).
`sysPrompt` is `self.system_prompt`, already stripped by `__init__`;
the developer message is included only when it is nonempty. -/
def build_chat_messages (sysPrompt : String) (sig : Signature) : List Msg :=
  let userContent := "```json\n" ++ json_dumps (payloadOf sig) ++ "\n```"
  (if sysPrompt ≠ "" then [Msg.mk "developer" sysPrompt] else [])
    ++ [Msg.mk "user" userContent]

/-- The external generation service: maps a request to either a transport
or auth or service failure (`openai` exception) or the raw response text. -/
abbrev GenFn := List Msg → Except Unit String

/-- `ApiCaller._call_chatgpt` (src/main.py lines 139-144): the service
response is stripped; service exceptions propagate. -/
def call_chatgpt (gen : GenFn) (msgs : List Msg) : Except Unit String :=
  match gen msgs with
  | .ok s => .ok (String.mk (trimChars s.data))
  | .error e => .error e

/-! ### The file system and observable effects -/

/-- The file-system state the pipeline observes: which paths exist
(`Path.exists`) and the `%Y-%m-%d` rendering of each path's modification
time (`datetime.fromtimestamp(stat().st_mtime).strftime("%Y-%m-%d")`). -/
structure Fs where
  pathExists : String → Bool
  mtimeDate : String → String

/-- Writing a file at `p` `today`: it now exists and its modification
date is today's date. -/
def fsWrite (fs : Fs) (p : String) (today : String) : Fs :=
  { pathExists := fun q => q == p || fs.pathExists q
    mtimeDate := fun q => if q == p then today else fs.mtimeDate q }

/-- Observable side effects of a pipeline run, in order. -/
inductive Effect where
  /-- an invocation of `_call_chatgpt` for record `(category, name)` -/
  | genCall (category name : String) (messages : List Msg)
  /-- the logged, swallowed per-record parsing error of
  `run_all_updates` ("[!] Error parsing response for ...") -/
  | parseFail (category name : String)
  /-- `out_path.write_text(...)` of a generated artifact -/
  | writeArtifact (path text : String)
  /-- `save_to_file`'s `self.json_path.write_text(...)` -/
  | writeRegistry (content : String)

/-- Does the trace call the generator for record `(c, n)`? -/
def callsFor (c n : String) (tr : List Effect) : Bool :=
  tr.any (fun e => match e with
    | .genCall c' n' _ => c' == c && n' == n
    | _ => false)

/-- Does the trace log a swallowed parse error for record `(c, n)`? -/
def parseFailFor (c n : String) (tr : List Effect) : Bool :=
  tr.any (fun e => match e with
    | .parseFail c' n' => c' == c && n' == n
    | _ => false)

/-- Does the trace write an artifact at path `p`? -/
def writesTo (p : String) (tr : List Effect) : Bool :=
  tr.any (fun e => match e with
    | .writeArtifact q _ => q == p
    | _ => false)

/-- Does the trace write the registry file? -/
def wroteRegistry (tr : List Effect) : Bool :=
  tr.any (fun e => match e with
    | .writeRegistry _ => true
    | _ => false)

/-- Ways a whole run can abort (uncaught Python exceptions). -/
inductive RunErr where
  /-- an `openai` transport/auth/service exception out of `_call_chatgpt`
  (the spec's `GenerationServiceError`) -/
  | genService : RunErr
  /-- a `TypeError` (non-string `sig.path` in `project_base / sig.path`,
  or non-string `documentation` in `documentation + "\n"`) -/
  | typeErr : RunErr
deriving DecidableEq

/-! ### `ApiCaller.run_all_updates` (src/main.py lines 200-231) -/

/-- The body of the nested loop of `run_all_updates` for one record:
skip-and-reconcile when the artifact exists, otherwise call the
generator (whose failure is NOT caught: only `_extract_parts` sits inside
the `try`), swallow parse errors, write the artifact and update the
record.  `update_signature_in_memory` is folded into returning the new
`Signature` for this record's slot: `sig` is the very object stored in
the registry dict, so the in-place field writes plus the update call
amount to replacing this entry's value.  Returns the new record, file
system and this record's effects. -/
def processOne (gen : GenFn) (sysPrompt base today : String)
    (c n : String) (sig : Signature) (fs : Fs) :
    Except RunErr (Signature × Fs × List Effect) :=
  match sig.path with
  | .str p =>
    let outPath := pyJoin base p
    if fs.pathExists outPath then
      .ok ({ sig with last_updated := .str (fs.mtimeDate outPath) }, fs, [])
    else
      let msgs := build_chat_messages sysPrompt sig
      match call_chatgpt gen msgs with
      | .error _ => .error .genService
      | .ok raw =>
        match extract_parts raw with
        | .error _ => .ok (sig, fs, [.genCall c n msgs, .parseFail c n])
        | .ok (doc, src) =>
          match doc with
          | .str d =>
            let txt := d ++ "\n"
            .ok ({ sig with seemore := src, last_updated := .str today },
                 fsWrite fs outPath today,
                 [.genCall c n msgs, .writeArtifact outPath txt])
          | _ => .error .typeErr
  | _ => .error .typeErr

/-- The inner `for name, sig in entries.items()` loop over one category. -/
def runEntries (gen : GenFn) (sysPrompt base today : String) (c : String) :
    List (String × Signature) → Fs →
    Except RunErr (List (String × Signature) × Fs × List Effect)
  | [], fs => .ok ([], fs, [])
  | (n, sig) :: rest, fs =>
    match processOne gen sysPrompt base today c n sig fs with
    | .error e => .error e
    | .ok (sig', fs1, tr1) =>
      match runEntries gen sysPrompt base today c rest fs1 with
      | .error e => .error e
      | .ok (rest', fs2, tr2) => .ok ((n, sig') :: rest', fs2, tr1 ++ tr2)

/-- The outer `for category, entries in ...` loop. -/
def runCats (gen : GenFn) (sysPrompt base today : String) :
    Registry → Fs → Except RunErr (Registry × Fs × List Effect)
  | [], fs => .ok ([], fs, [])
  | (c, entries) :: rest, fs =>
    match runEntries gen sysPrompt base today c entries fs with
    | .error e => .error e
    | .ok (entries', fs1, tr1) =>
      match runCats gen sysPrompt base today rest fs1 with
      | .error e => .error e
      | .ok (rest', fs2, tr2) => .ok ((c, entries') :: rest', fs2, tr1 ++ tr2)

/-- `ApiCaller.run_all_updates` (src/main.py lines 200-231): the nested
loops followed by the single final `save_to_file`.  An uncaught exception
aborts the run before the registry file is written. -/
def run_all_updates (gen : GenFn) (sysPrompt base today : String)
    (reg : Registry) (fs : Fs) :
    Except RunErr (Registry × Fs × List Effect) :=
  match runCats gen sysPrompt base today reg fs with
  | .error e => .error e
  | .ok (reg', fs', tr) =>
    .ok (reg', fs', tr ++ [.writeRegistry (save_to_file reg')])

/-- The registry component of a completed run (`none` when the run
aborted). -/
def runReg (r : Except RunErr (Registry × Fs × List Effect)) : Option Registry :=
  match r with
  | .ok (reg, _, _) => some reg
  | .error _ => none

/-! ### `ApiCaller.test_update_single` (src/main.py lines 180-198) -/

/-- How the single-record ("test") operation can fail: every error is
fatal here (nothing is caught). -/
inductive TestErr where
  | keyError : TestErr          -- get_signature / update_signature_in_memory
  | genService : TestErr        -- the external call raised
  | parse (e : ExtractErr) : TestErr  -- _extract_parts raised
  | typeErr : TestErr           -- non-string path or documentation
deriving DecidableEq

/-- `ApiCaller.test_update_single`: always calls the generator and always
overwrites the artifact; mutates the record in memory; never calls
`save_to_file`. -/
def test_update_single (gen : GenFn) (sysPrompt base today : String)
    (reg : Registry) (fs : Fs) (c n : String) :
    Except TestErr (Registry × Fs × List Effect) :=
  match get_signature reg c n with
  | .error _ => .error .keyError
  | .ok sig =>
    let msgs := build_chat_messages sysPrompt sig
    match call_chatgpt gen msgs with
    | .error _ => .error .genService
    | .ok raw =>
      match extract_parts raw with
      | .error e => .error (.parse e)
      | .ok (doc, src) =>
        match sig.path with
        | .str p =>
          let outPath := pyJoin base p
          match doc with
          | .str d =>
            let txt := d ++ "\n"
            let sig' := { sig with seemore := src, last_updated := .str today }
            match update_signature_in_memory reg sig' with
            | .error _ => .error .keyError
            | .ok reg2 =>
              .ok (reg2, fsWrite fs outPath today,
                   [.genCall c n msgs, .writeArtifact outPath txt])
          | _ => .error .typeErr
        | _ => .error .typeErr

/-! ### The link-scan utility (src/json_updater.py lines 37-92)

The two regexes are compiled to explicit matchers.  Both are
backtracking-free because every quantified class excludes the character
that must follow it, so greedy runs plus literal checks reproduce
`re.search` exactly; the scan over start positions gives the leftmost
match. -/

/-- Matches `https?://[^\s X]+` at the head of `cs`, where ` X` is `)`
when `stopParen` is true (the Markdown-link regex) and `<` otherwise
(the raw-URL regex).  Returns the matched URL and the remainder. -/
def matchUrl (stopParen : Bool) (cs : List Char) :
    Option (List Char × List Char) :=
  match cs with
  | 'h' :: 't' :: 't' :: 'p' :: rest =>
    let (scheme, rest1) : List Char × List Char :=
      match rest with
      | 's' :: r => (['h', 't', 't', 'p', 's'], r)
      | r => (['h', 't', 't', 'p'], r)
    match rest1 with
    | ':' :: '/' :: '/' :: rest2 =>
      let cls := fun c =>
        !(isPyWs c) && (if stopParen then c ≠ ')' else c ≠ '<')
      let run := rest2.takeWhile cls
      if run.isEmpty then none
      else some (scheme ++ ':' :: '/' :: '/' :: run, rest2.dropWhile cls)
    | _ => none
  | _ => none

/-- Attempts `\[[^\]]+\]\(\s*(https?://[^\s\)]+)\s*\)` at the head of
`cs`; returns capture group 1. -/
def matchMdLinkAt (cs : List Char) : Option String :=
  match cs with
  | '[' :: rest =>
    let txt := rest.takeWhile (fun c => c ≠ ']')
    if txt.isEmpty then none
    else
      match rest.dropWhile (fun c => c ≠ ']') with
      | ']' :: '(' :: rest2 =>
        match matchUrl true (rest2.dropWhile isPyWs) with
        | some (url, rest4) =>
          match rest4.dropWhile isPyWs with
          | ')' :: _ => some (String.mk url)
          | _ => none
        | none => none
      | _ => none
  | _ => none

/-- `md_link_rx.search(text)`: group 1 of the leftmost match. -/
def searchMdLink : List Char → Option String
  | [] => none
  | c :: rest =>
    match matchMdLinkAt (c :: rest) with
    | some u => some u
    | none => searchMdLink rest

/-- `raw_url_rx.search(text)`: group 1 of the leftmost match of
`(https?://[^\s<]+)`. -/
def searchRawUrl : List Char → Option String
  | [] => none
  | c :: rest =>
    match matchUrl false (c :: rest) with
    | some (url, _) => some (String.mk url)
    | none => searchRawUrl rest

/-- `md_link_rx.search(text) or raw_url_rx.search(text)`. -/
def firstUrl (text : String) : Option String :=
  match searchMdLink text.data with
  | some u => some u
  | none => searchRawUrl text.data

/-- One markdown file found by `docs_base.rglob("*.md")`, in traversal
order: its path and its text. -/
structure MdDoc where
  path : String
  text : String

/-- `file_map.get(filename, [])`: the rglob-ordered files whose basename
equals `filename`. -/
def docMatches (docs : List MdDoc) (filename : String) : List MdDoc :=
  docs.filter (fun d => pathName d.path == filename)

/-- The per-record body of the updater loop (src/json_updater.py lines
54-89): skip non-dict props, skip falsy `path`, skip zero or multiple
basename matches; otherwise set `seemore` to the first URL found (if
any) and force `last_updated` to today.  A truthy non-string `path`
makes `Path(rel_path)` raise `TypeError`, aborting the whole run. -/
def updaterProps (docs : List MdDoc) (today : String) (props : Json) :
    Except Unit Json :=
  match props with
  | .obj kvs =>
    let relPath := objGetD kvs "path" .null
    if jsonFalsy relPath then .ok (.obj kvs)
    else
      match relPath with
      | .str p =>
        match docMatches docs (pathName p) with
        | [] => .ok (.obj kvs)
        | [d] =>
          let kvs1 := match firstUrl d.text with
            | some u => objSet kvs "seemore" (.str u)
            | none => kvs
          .ok (.obj (objSet kvs1 "last_updated" (.str today)))
        | _ => .ok (.obj kvs)
      | _ => .error ()
  | props => .ok props

/-- The inner loop over one category's entries. -/
def updaterEntries (docs : List MdDoc) (today : String) :
    List (String × Json) → Except Unit (List (String × Json))
  | [] => .ok []
  | (n, props) :: rest =>
    match updaterProps docs today props with
    | .error e => .error e
    | .ok props' =>
      match updaterEntries docs today rest with
      | .error e => .error e
      | .ok rest' => .ok ((n, props') :: rest')

/-- One top-level category: non-object categories are skipped with a
warning. -/
def updaterCat (docs : List MdDoc) (today : String) : Json → Except Unit Json
  | .obj es => (updaterEntries docs today es).map Json.obj
  | other => .ok other

/-- `main` of src/json_updater.py, lines 49-92: the loop over the parsed
index data; the mutated data is what line 92 writes back.  An uncaught
exception aborts before anything is written. -/
def updater_run (docs : List MdDoc) (today : String) :
    List (String × Json) → Except Unit (List (String × Json))
  | [] => .ok []
  | (c, ej) :: rest =>
    match updaterCat docs today ej with
    | .error e => .error e
    | .ok ej' =>
      match updater_run docs today rest with
      | .error e => .error e
      | .ok rest' => .ok ((c, ej') :: rest')

/-- Lookup of one record's props object in the updater's data. -/
def dataProps (data : List (String × Json)) (c n : String) : Option Json :=
  (lookupKv data c).bind (fun ej => ej.get? n)

/-! ### Auxiliary definitions used by the claim statements -/

/-- Record lookup inside one category. -/
def lookupN (es : List (String × Signature)) (n : String) : Option Signature :=
  (es.find? (fun pr => pr.1 == n)).map (fun pr => pr.2)

/-- The spec's example response text. -/
def c3Example : String :=
  "prefix ```json\n[\x7b\"documentation\":\"D\"\x7d,\x7b\"source\":\"U\"\x7d]\n``` suffix"

/-- The exact keys of every saved record object, in dataclass order. -/
def sevenKeys : List String :=
  ["visible", "declaration", "seemore", "seealso", "deprecated",
   "last_updated", "path"]

/-- Well-formed registry: category names and, within each category,
record names are unique (guaranteed by loading from JSON objects). -/
def regWF (reg : Registry) : Prop :=
  (reg.map Prod.fst).Nodup ∧ ∀ pr ∈ reg, ((pr.2.map Prod.fst).Nodup)

def c2Sig : Signature := { category := "fn", name := "Foo", path := .str "a/Foo.md" }

def c2Reg : Registry := [("fn", [("Foo", c2Sig)])]

def c2Fs : Fs :=
  { pathExists := fun q => q == "/base/a/Foo.md", mtimeDate := fun _ => "2023-01-01" }

def c2Gen : GenFn := fun _ => .error ()

def c4Sig : Signature := { category := "fn", name := "Bar", path := .str "" }

def c4Reg : Registry := [("fn", [("Bar", c4Sig)])]

def c4Fs : Fs :=
  { pathExists := fun q => q == "/base", mtimeDate := fun _ => "2022-05-05" }

def c4Gen : GenFn := fun _ => .error ()

def c1Sig : Signature := { category := "fn", name := "Foo", path := .str "a/Foo.md" }

def c1Reg : Registry := [("fn", [("Foo", c1Sig)])]

def c1Fs : Fs := { pathExists := fun _ => false, mtimeDate := fun _ => "1970-01-01" }

def c1GenFail : GenFn := fun _ => .error ()

def c1GenBad : GenFn := fun _ => .ok "no array here"

def c9Sig : Signature := { category := "fn", name := "Foo", path := .str "a/Foo.md" }

def c9Reg : Registry := [("fn", [("Foo", c9Sig)])]

def c9Fs : Fs := { pathExists := fun _ => false, mtimeDate := fun _ => "1970-01-01" }

def c9Gen : GenFn :=
  fun _ => .ok "[\x7b\"documentation\":\"D\"\x7d,\x7b\"source\":\"U\"\x7d]"

def c8Doc : MdDoc :=
  { path := "/docs/sub/Foo.md", text := "intro [x](http://ex.com/a) rest" }

def c8Data : List (String × Json) :=
  [("fn", .obj [("Foo", .obj [("path", .str "a/Foo.md"), ("seemore", .str "old")]),
                ("Bar", .obj [("path", .str "b/Bar.md")])])]

def c8DataAfter : List (String × Json) :=
  [("fn", .obj [("Foo", .obj [("path", .str "a/Foo.md"),
                              ("seemore", .str "http://ex.com/a"),
                              ("last_updated", .str "2025-02-03")]),
                ("Bar", .obj [("path", .str "b/Bar.md")])])]

def c6Data : List (String × Json) :=
  [("fn", .obj [("Foo", .obj
    [("visible", .bool true), ("declaration", .str "d"), ("seemore", .str "s"),
     ("seealso", .str "a"), ("deprecated", .str ""),
     ("last_updated", .str "2023-01-01"), ("path", .str "x.md")])])]

def Json.isObj : Json → Bool
  | .obj _ => true
  | _ => false

/-- Three-level access into the registry JSON:
category → record → field. -/
def get3 (j : Json) (c n k : String) : Option Json :=
  ((j.get? c).bind (fun e => e.get? n)).bind (fun r => r.get? k)

/-- A record object that survives the round-trip unchanged: an object
whose key set is exactly the seven attribute keys. -/
def recordWF (props : Json) : Prop :=
  props.isObj = true
  ∧ (∀ k ∈ props.keys, k ∈ sevenKeys)
  ∧ (∀ k ∈ sevenKeys, k ∈ props.keys)

/-- A registry file whose categories are objects and whose records all
satisfy `recordWF`. -/
def fileWF (data : List (String × Json)) : Prop :=
  ∀ pr ∈ data, pr.2.isObj = true ∧ ∀ qr ∈ pr.2.entries, recordWF qr.2

instance (props : Json) : Decidable (recordWF props) := by
  unfold recordWF; infer_instance

instance (data : List (String × Json)) : Decidable (fileWF data) := by
  unfold fileWF; infer_instance

/-! ## General lemmas -/

theorem lookupSig_eq (reg : Registry) (c n : String) :
    lookupSig reg c n = (lookupCat reg c).bind (fun es => lookupN es n) := rfl

/-- `find?` by key commutes with a key-preserving map. -/
theorem find?_map_keyed {α β : Type} (g : String × α → β)
    (l : List (String × α)) (c : String) :
    (l.map (fun pr => (pr.1, g pr))).find? (fun pr => pr.1 == c)
      = (l.find? (fun pr => pr.1 == c)).map (fun pr => (pr.1, g pr)) := by
  induction l with
  | nil => rfl
  | cons a t ih =>
    by_cases h : a.1 = c
    · simp [List.find?_cons, h]
    · have hb : (a.1 == c) = false := beq_eq_false_iff_ne.mpr h
      simp [List.find?_cons, hb, ih]

/-- A present key makes `objGetD` agree with `lookupKv`. -/
theorem objGetD_of_mem (kvs : List (String × Json)) (k : String) (d : Json)
    (hk : k ∈ kvs.map Prod.fst) :
    some (objGetD kvs k d) = lookupKv kvs k := by
  cases hfind : kvs.find? (fun pr => pr.1 == k) with
  | none =>
    rw [List.find?_eq_none] at hfind
    rcases List.mem_map.mp hk with ⟨pr, hpr, hfst⟩
    have := hfind pr hpr
    simp [hfst] at this
  | some pr => simp [objGetD, lookupKv, hfind]

/-- An absent key makes `lookupKv` return `none`. -/
theorem lookupKv_eq_none (kvs : List (String × Json)) (k : String)
    (hk : k ∉ kvs.map Prod.fst) :
    lookupKv kvs k = none := by
  have hfind : kvs.find? (fun pr => pr.1 == k) = none := by
    rw [List.find?_eq_none]
    intro pr hpr
    simp only [Bool.not_eq_true, beq_eq_false_iff_ne]
    intro hfst
    exact hk (List.mem_map.mpr ⟨pr, hpr, hfst⟩)
  simp [lookupKv, hfind]

theorem extract_parts_of_bracket (raw js : String)
    (h : bracketSub raw = some js) :
    extract_parts raw = extractFromJs js := by
  unfold extract_parts
  rw [h]

theorem extractFromJs_of_loads (js : String) (v : Json)
    (h : json_loads js = some v) :
    extractFromJs js = validateParts v := by
  unfold extractFromJs
  rw [h]

/-! ## Claim C5: the registry path actually read -/

/-- C5: the Registry Store does not parse the JSON file at the
caller-supplied path.  `JsonSerializer.__init__` ignores its `json_path`
parameter and always reads `cwd/_Index.json`: with working directory
`/work`, constructing the store with `/data/registry.json` still reads
`/work/_Index.json`. -/
theorem c5_load_ignores_caller_path :
    JsonSerializer.index_path "/work" "/data/registry.json" = "/work/_Index.json"
    ∧ JsonSerializer.index_path "/work" "/data/registry.json" ≠ "/data/registry.json" :=
  ⟨rfl, by decide⟩

/-! ## Claim C3: the response parser -/

/-- C3 (counterexample): the response `[0,0]` parses to a two-element
array whose first element, the non-object `0`, lacks a `documentation`
key, yet `_extract_parts` fails with a Python `TypeError` (from
`"documentation" not in parsed[0]`), not with one of the
`MalformedResponse` `ValueError`s as the claim states. -/
theorem c3_nonobject_element_type_error :
    extract_parts "[0,0]" = .error .typeErr
    ∧ isMalformedResponse .typeErr = false :=
  ⟨rfl, rfl⟩

/-- C3 (amended): the example parses to `("D", "U")`; an array of the
wrong length fails with the `MalformedResponse` error `badShape`; a
two-element array whose first element is an *object* without
`documentation`, or whose second element is an *object* without `source`,
fails with the `MalformedResponse` error `missingKeys`; a bracketed
substring that is not valid JSON fails with `invalidJson`, which is not
a `MalformedResponse`.  The missing-key clause cannot be extended to all
elements lacking the key: for `[0,0]` the membership test raises a
Python `TypeError` instead (`c3_nonobject_element_type_error`). -/
theorem c3_extract_parts_contract :
    extract_parts c3Example = .ok (.str "D", .str "U")
    ∧ (∀ raw js xs, bracketSub raw = some js →
        json_loads js = some (.arr xs) → xs.length ≠ 2 →
        extract_parts raw = .error .badShape
          ∧ isMalformedResponse .badShape = true)
    ∧ (∀ raw js a b kvs, bracketSub raw = some js →
        json_loads js = some (.arr [a, b]) → a = .obj kvs →
        kvs.any (fun pr => pr.1 == "documentation") = false →
        extract_parts raw = .error .missingKeys
          ∧ isMalformedResponse .missingKeys = true)
    ∧ (∀ raw js a b kvs, bracketSub raw = some js →
        json_loads js = some (.arr [a, b]) →
        pyContains "documentation" a = .ok true → b = .obj kvs →
        kvs.any (fun pr => pr.1 == "source") = false →
        extract_parts raw = .error .missingKeys)
    ∧ (∀ raw js, bracketSub raw = some js → json_loads js = none →
        extract_parts raw = .error .invalidJson
          ∧ isMalformedResponse .invalidJson = false) := by
  refine ⟨rfl, ?_, ?_, ?_, ?_⟩
  · intro raw js xs hbr hld hlen
    refine ⟨?_, rfl⟩
    rw [extract_parts_of_bracket raw js hbr, extractFromJs_of_loads _ _ hld]
    match xs, hlen with
    | [], _ => rfl
    | [a], _ => rfl
    | [a, b], h => exact absurd rfl h
    | a :: b :: x :: t, _ => rfl
  · intro raw js a b kvs hbr hld ha hany
    refine ⟨?_, rfl⟩
    rw [extract_parts_of_bracket raw js hbr, extractFromJs_of_loads _ _ hld]
    subst ha
    simp [validateParts, pyContains, hany]
  · intro raw js a b kvs hbr hld hdoc hb hany
    rw [extract_parts_of_bracket raw js hbr, extractFromJs_of_loads _ _ hld]
    subst hb
    simp only [validateParts]
    rw [hdoc]
    simp [pyContains, hany]
  · intro raw js hbr hld
    refine ⟨?_, rfl⟩
    rw [extract_parts_of_bracket raw js hbr]
    unfold extractFromJs
    rw [hld]

/-- Witness for `c3_extract_parts_contract`: the universally quantified
parts applied at concrete responses. -/
theorem c3_extract_parts_contract_witness :
    extract_parts "[1,2,3]" = .error .badShape
    ∧ extract_parts "[\x7b\x7d,\x7b\"source\":\"U\"\x7d]" = .error .missingKeys
    ∧ extract_parts "[\x7b\"documentation\":\"D\"\x7d,\x7b\x7d]" = .error .missingKeys
    ∧ extract_parts "[oops]" = .error .invalidJson :=
  ⟨(c3_extract_parts_contract.2.1 "[1,2,3]" "[1,2,3]"
      [.num 1, .num 2, .num 3] rfl rfl (by decide)).1,
   (c3_extract_parts_contract.2.2.1 "[\x7b\x7d,\x7b\"source\":\"U\"\x7d]"
      "[\x7b\x7d,\x7b\"source\":\"U\"\x7d]" (.obj [])
      (.obj [("source", .str "U")]) [] rfl rfl rfl rfl).1,
   c3_extract_parts_contract.2.2.2.1 "[\x7b\"documentation\":\"D\"\x7d,\x7b\x7d]"
      "[\x7b\"documentation\":\"D\"\x7d,\x7b\x7d]"
      (.obj [("documentation", .str "D")]) (.obj []) [] rfl rfl rfl rfl rfl,
   (c3_extract_parts_contract.2.2.2.2 "[oops]" "[oops]" rfl rfl).1⟩

/-! ## Claim C10: shape of saved record objects -/

/-- C10: `Signature.to_dict` emits exactly the seven attribute keys (the
identity fields `category`/`name` are popped), and consequently every
record object inside `save_to_file`'s serialized registry has exactly
those seven keys. -/
theorem c10_saved_record_keys :
    (∀ sig : Signature,
      (Signature.to_dict sig).map Prod.fst = sevenKeys
      ∧ "category" ∉ (Signature.to_dict sig).map Prod.fst
      ∧ "name" ∉ (Signature.to_dict sig).map Prod.fst)
    ∧ (∀ (reg : Registry) (c n : String) (r : Json),
        ((save_serialized reg).get? c).bind (fun e => e.get? n) = some r →
        r.keys = sevenKeys) := by
  constructor
  · intro sig
    exact ⟨rfl, (by decide : "category" ∉ sevenKeys),
      (by decide : "name" ∉ sevenKeys)⟩
  · intro reg c n r h
    simp only [save_serialized, Json.get?, Json.entries, lookupKv] at h
    rw [find?_map_keyed] at h
    cases hfind : reg.find? (fun pr => pr.1 == c) with
    | none => rw [hfind] at h; simp at h
    | some pr =>
      rw [hfind] at h
      have h2 : Json.get?
          (Json.obj (pr.2.map (fun qr => (qr.1, Json.obj qr.2.to_dict)))) n
          = some r := h
      simp only [Json.get?, Json.entries, lookupKv] at h2
      rw [find?_map_keyed] at h2
      cases hfind2 : pr.2.find? (fun qr => qr.1 == n) with
      | none => rw [hfind2] at h2; simp at h2
      | some qr =>
        rw [hfind2] at h2
        have h3 : some (Json.obj qr.2.to_dict) = some r := h2
        simp only [Option.some.injEq] at h3
        subst h3
        rfl

/-- Witness for `c10_saved_record_keys`: the hypothesis-bearing second
part applied to a one-record registry. -/
theorem c10_saved_record_keys_witness :
    (Json.obj (Signature.to_dict
      { category := "fn", name := "Foo", path := .str "a/Foo.md" })).keys
      = sevenKeys :=
  c10_saved_record_keys.2
    [("fn", [("Foo", { category := "fn", name := "Foo", path := .str "a/Foo.md" })])]
    "fn" "Foo" _ rfl

/-! ## Claim C7: `get_signature` / `update_signature_in_memory` -/

/-- C7: a `(category, name)` pair absent from the in-memory registry
makes `get_signature` raise `KeyError` (a Python `LookupError`) and makes
`update_signature_in_memory` raise `KeyError` instead of inserting a new
entry; updating a present key replaces exactly that stored record and
nothing else. -/
theorem c7_get_update_contract :
    (∀ (reg : Registry) (c n : String), lookupSig reg c n = none →
      get_signature reg c n = .error ()
      ∧ ∀ sig : Signature, sig.category = c → sig.name = n →
          update_signature_in_memory reg sig = .error ())
    ∧ (∀ (reg : Registry) (sig old : Signature),
        lookupSig reg sig.category sig.name = some old →
        update_signature_in_memory reg sig
          = .ok (replaceSig reg sig.category sig.name sig))
    ∧ (∀ (reg : Registry) (c n : String) (sig old : Signature),
        lookupSig reg c n = some old →
        lookupSig (replaceSig reg c n sig) c n = some sig)
    ∧ (∀ (reg : Registry) (c n : String) (sig : Signature) (c' n' : String),
        (c' = c → n' ≠ n) →
        lookupSig (replaceSig reg c n sig) c' n' = lookupSig reg c' n') := by
  refine ⟨?_, ?_, ?_, ?_⟩
  · intro reg c n h
    refine ⟨by simp [get_signature, h], ?_⟩
    intro sig hc hn
    rw [lookupSig_eq] at h
    unfold update_signature_in_memory
    rw [hc, hn]
    cases hcat : lookupCat reg c with
    | none => rfl
    | some es =>
      rw [hcat] at h
      have h' : lookupN es n = none := h
      have hany : es.any (fun pr => pr.1 == n) = false := by
        cases hfind : es.find? (fun pr => pr.1 == n) with
        | none =>
          rw [List.find?_eq_none] at hfind
          simp only [List.any_eq_false, Bool.not_eq_true]
          exact fun pr hpr => by simpa using hfind pr hpr
        | some pr => simp [lookupN, hfind] at h'
      simp [hany]
  · intro reg sig old h
    rw [lookupSig_eq] at h
    unfold update_signature_in_memory
    cases hcat : lookupCat reg sig.category with
    | none => rw [hcat] at h; simp at h
    | some es =>
      rw [hcat] at h
      have h' : lookupN es sig.name = some old := h
      have hany : es.any (fun pr => pr.1 == sig.name) = true := by
        cases hfind : es.find? (fun pr => pr.1 == sig.name) with
        | none => simp [lookupN, hfind] at h'
        | some pr =>
          refine List.any_eq_true.mpr ⟨pr, List.mem_of_find?_eq_some hfind, ?_⟩
          simpa using List.find?_some hfind
      simp [hany]
  · intro reg c n sig old h
    rw [lookupSig_eq] at h
    rw [lookupSig_eq]
    cases hcat : lookupCat reg c with
    | none => rw [hcat] at h; simp at h
    | some es =>
      rw [hcat] at h
      have h' : lookupN es n = some old := h
      have hcat2 : lookupCat (replaceSig reg c n sig) c
          = some (es.map (fun qr => (qr.1, if qr.1 == n then sig else qr.2))) := by
        simp only [lookupCat, replaceSig] at hcat ⊢
        rw [find?_map_keyed]
        cases hfind : reg.find? (fun pr => pr.1 == c) with
        | none => rw [hfind] at hcat; simp at hcat
        | some pr =>
          rw [hfind] at hcat
          have hbeq : (pr.1 == c) = true := by
            simpa using List.find?_some hfind
          have hes : pr.2 = es := by simpa using hcat
          subst hes
          show some (if (pr.1 == c) = true then
              pr.2.map (fun qr => (qr.1, if qr.1 == n then sig else qr.2))
            else pr.2)
            = some (pr.2.map (fun qr => (qr.1, if qr.1 == n then sig else qr.2)))
          rw [hbeq]
          rfl
      rw [hcat2]
      show lookupN (es.map (fun qr => (qr.1, if qr.1 == n then sig else qr.2))) n
        = some sig
      simp only [lookupN]
      rw [find?_map_keyed]
      cases hfind2 : es.find? (fun qr => qr.1 == n) with
      | none => simp [lookupN, hfind2] at h'
      | some qr =>
        have hbeq : (qr.1 == n) = true := by
          simpa using List.find?_some hfind2
        show some (if (qr.1 == n) = true then sig else qr.2) = some sig
        rw [hbeq]
        rfl
  · intro reg c n sig c' n' hne
    rw [lookupSig_eq, lookupSig_eq]
    simp only [lookupCat, replaceSig]
    rw [find?_map_keyed]
    cases hfind : reg.find? (fun pr => pr.1 == c') with
    | none => rfl
    | some pr =>
      show lookupN (if (pr.1 == c) = true then
          pr.2.map (fun qr => (qr.1, if qr.1 == n then sig else qr.2))
        else pr.2) n' = lookupN pr.2 n'
      by_cases hc : pr.1 = c
      · have hcc' : c' = c := by
          have h1 : pr.1 = c' := by simpa using List.find?_some hfind
          rw [← h1, hc]
        have hn : n' ≠ n := hne hcc'
        have hbeq : (pr.1 == c) = true := by simp [hc]
        rw [hbeq]
        show lookupN (pr.2.map (fun qr => (qr.1, if qr.1 == n then sig else qr.2))) n'
          = lookupN pr.2 n'
        simp only [lookupN]
        rw [find?_map_keyed]
        cases hfind2 : pr.2.find? (fun qr => qr.1 == n') with
        | none => rfl
        | some qr =>
          have hq : qr.1 = n' := by simpa using List.find?_some hfind2
          have hqn : (qr.1 == n) = false :=
            beq_eq_false_iff_ne.mpr (by rw [hq]; exact hn)
          show some (if (qr.1 == n) = true then sig else qr.2) = some qr.2
          rw [hqn]
          rfl
      · have hbeq : (pr.1 == c) = false := beq_eq_false_iff_ne.mpr hc
        rw [hbeq]
        rfl

/-- Witness for `c7_get_update_contract`: all four parts applied to a
concrete two-record registry. -/
theorem c7_get_update_contract_witness :
    (get_signature [("fn", [("Foo", { category := "fn", name := "Foo" : Signature })])]
        "fn" "Nope" = .error ()
      ∧ update_signature_in_memory
          [("fn", [("Foo", { category := "fn", name := "Foo" : Signature })])]
          { category := "fn", name := "Nope" } = .error ())
    ∧ update_signature_in_memory
        [("fn", [("Foo", { category := "fn", name := "Foo" : Signature }),
                 ("Bar", { category := "fn", name := "Bar" : Signature })])]
        { category := "fn", name := "Foo", seemore := .str "u" }
        = .ok (replaceSig
            [("fn", [("Foo", { category := "fn", name := "Foo" : Signature }),
                     ("Bar", { category := "fn", name := "Bar" : Signature })])]
            "fn" "Foo" { category := "fn", name := "Foo", seemore := .str "u" })
    ∧ lookupSig (replaceSig
          [("fn", [("Foo", { category := "fn", name := "Foo" : Signature }),
                   ("Bar", { category := "fn", name := "Bar" : Signature })])]
          "fn" "Foo" { category := "fn", name := "Foo", seemore := .str "u" })
        "fn" "Foo" = some { category := "fn", name := "Foo", seemore := .str "u" }
    ∧ lookupSig (replaceSig
          [("fn", [("Foo", { category := "fn", name := "Foo" : Signature }),
                   ("Bar", { category := "fn", name := "Bar" : Signature })])]
          "fn" "Foo" { category := "fn", name := "Foo", seemore := .str "u" })
        "fn" "Bar"
      = lookupSig
          [("fn", [("Foo", { category := "fn", name := "Foo" : Signature }),
                   ("Bar", { category := "fn", name := "Bar" : Signature })])]
          "fn" "Bar" :=
  ⟨(fun h => ⟨h.1, (h.2 { category := "fn", name := "Nope" } rfl rfl)⟩)
      (c7_get_update_contract.1
        [("fn", [("Foo", { category := "fn", name := "Foo" : Signature })])]
        "fn" "Nope" rfl),
   c7_get_update_contract.2.1
      [("fn", [("Foo", { category := "fn", name := "Foo" : Signature }),
               ("Bar", { category := "fn", name := "Bar" : Signature })])]
      { category := "fn", name := "Foo", seemore := .str "u" }
      { category := "fn", name := "Foo" } rfl,
   c7_get_update_contract.2.2.1
      [("fn", [("Foo", { category := "fn", name := "Foo" : Signature }),
               ("Bar", { category := "fn", name := "Bar" : Signature })])]
      "fn" "Foo" { category := "fn", name := "Foo", seemore := .str "u" }
      { category := "fn", name := "Foo" } rfl,
   c7_get_update_contract.2.2.2
      [("fn", [("Foo", { category := "fn", name := "Foo" : Signature }),
               ("Bar", { category := "fn", name := "Bar" : Signature })])]
      "fn" "Foo" { category := "fn", name := "Foo", seemore := .str "u" }
      "fn" "Bar" (fun _ h => by exact absurd h (by decide))⟩

/-! ## Pipeline lemmas for the batch claims (C1, C2, C4)

The central tool is an inversion principle for `processOne`: a successful
step is either a reconcile (artifact exists), a swallowed parse failure,
or a generate-and-write. -/

theorem processOne_cases (gen : GenFn) (sp base today c n : String)
    (sig : Signature) (fs : Fs) (sig' : Signature) (fs' : Fs)
    (δ : List Effect)
    (h : processOne gen sp base today c n sig fs = .ok (sig', fs', δ)) :
    ∃ p, sig.path = .str p ∧
      ((fs.pathExists (pyJoin base p) = true
          ∧ sig' = { sig with last_updated := .str (fs.mtimeDate (pyJoin base p)) }
          ∧ fs' = fs ∧ δ = [])
       ∨ (fs.pathExists (pyJoin base p) = false
          ∧ sig' = sig ∧ fs' = fs
          ∧ δ = [.genCall c n (build_chat_messages sp sig), .parseFail c n])
       ∨ (∃ d src, fs.pathExists (pyJoin base p) = false
          ∧ sig' = { sig with seemore := src, last_updated := .str today }
          ∧ fs' = fsWrite fs (pyJoin base p) today
          ∧ δ = [.genCall c n (build_chat_messages sp sig),
                 .writeArtifact (pyJoin base p) (d ++ "\n")])) := by
  simp only [processOne] at h
  split at h
  case _ p hpath =>
    refine ⟨p, hpath, ?_⟩
    split at h
    case isTrue hex =>
      simp only [Except.ok.injEq, Prod.mk.injEq] at h
      exact Or.inl ⟨hex, h.1.symm, h.2.1.symm, h.2.2.symm⟩
    case isFalse hex =>
      split at h
      · exact absurd h (by simp)
      case _ raw hcall =>
        split at h
        case _ e hparse =>
          simp only [Except.ok.injEq, Prod.mk.injEq] at h
          exact Or.inr (Or.inl
            ⟨by simpa using hex, h.1.symm, h.2.1.symm, h.2.2.symm⟩)
        case _ doc src hparse =>
          cases doc with
          | str d =>
            replace h : Except.ok
                ({ sig with seemore := src, last_updated := .str today },
                 fsWrite fs (pyJoin base p) today,
                 [Effect.genCall c n (build_chat_messages sp sig),
                  Effect.writeArtifact (pyJoin base p) (d ++ "\n")])
                = Except.ok (sig', fs', δ) := h
            simp only [Except.ok.injEq, Prod.mk.injEq] at h
            exact Or.inr (Or.inr ⟨d, src,
              by simpa using hex, h.1.symm, h.2.1.symm, h.2.2.symm⟩)
          | null => exact absurd h (by simp)
          | bool b => exact absurd h (by simp)
          | num i => exact absurd h (by simp)
          | arr xs => exact absurd h (by simp)
          | obj kvs => exact absurd h (by simp)
  all_goals exact absurd h (by simp)

theorem writesTo_append (q : String) (l1 l2 : List Effect) :
    writesTo q (l1 ++ l2) = (writesTo q l1 || writesTo q l2) := by
  simp [writesTo, List.any_append]

theorem callsFor_append (c n : String) (l1 l2 : List Effect) :
    callsFor c n (l1 ++ l2) = (callsFor c n l1 || callsFor c n l2) := by
  simp [callsFor, List.any_append]

theorem parseFailFor_append (c n : String) (l1 l2 : List Effect) :
    parseFailFor c n (l1 ++ l2) = (parseFailFor c n l1 || parseFailFor c n l2) := by
  simp [parseFailFor, List.any_append]

theorem wroteRegistry_append (l1 l2 : List Effect) :
    wroteRegistry (l1 ++ l2) = (wroteRegistry l1 || wroteRegistry l2) := by
  simp [wroteRegistry, List.any_append]

theorem lookupN_cons_self (n : String) (sig : Signature)
    (rest : List (String × Signature)) :
    lookupN ((n, sig) :: rest) n = some sig := by
  simp [lookupN, List.find?_cons, beq_self_eq_true]

theorem lookupN_cons_ne {n0 n : String} (hne : n0 ≠ n) (sig0 : Signature)
    (rest : List (String × Signature)) :
    lookupN ((n0, sig0) :: rest) n = lookupN rest n := by
  simp [lookupN, List.find?_cons, beq_eq_false_iff_ne.mpr hne]

theorem lookupCat_cons_self (c : String) (es : List (String × Signature))
    (rest : Registry) :
    lookupCat ((c, es) :: rest) c = some es := by
  simp [lookupCat, List.find?_cons, beq_self_eq_true]

theorem lookupCat_cons_ne {c0 c : String} (hne : c0 ≠ c)
    (es : List (String × Signature)) (rest : Registry) :
    lookupCat ((c0, es) :: rest) c = lookupCat rest c := by
  simp [lookupCat, List.find?_cons, beq_eq_false_iff_ne.mpr hne]

/-- A step never disturbs a path that already exists: the artifact there
is neither overwritten nor its modification time changed. -/
theorem processOne_preserves {gen : GenFn} {sp base today c n : String}
    {sig : Signature} {fs : Fs} {q : String} {sig' : Signature} {fs' : Fs}
    {δ : List Effect} (hq : fs.pathExists q = true)
    (h : processOne gen sp base today c n sig fs = .ok (sig', fs', δ)) :
    fs'.pathExists q = true ∧ fs'.mtimeDate q = fs.mtimeDate q
      ∧ writesTo q δ = false := by
  obtain ⟨p, hpath, hcase⟩ := processOne_cases _ _ _ _ _ _ _ _ _ _ _ h
  rcases hcase with ⟨hex, hs, hf, hd⟩ | ⟨hex, hs, hf, hd⟩ | ⟨d, src, hex, hs, hf, hd⟩
  · subst hf; subst hd; exact ⟨hq, rfl, rfl⟩
  · subst hf; subst hd; exact ⟨hq, rfl, rfl⟩
  · subst hf; subst hd
    have hne : q ≠ pyJoin base p := by
      intro he
      rw [he, hex] at hq
      cases hq
    have hb : (q == pyJoin base p) = false := beq_eq_false_iff_ne.mpr hne
    refine ⟨?_, ?_, ?_⟩
    · simp [fsWrite, hq]
    · show (if (q == pyJoin base p) = true then today else fs.mtimeDate q)
        = fs.mtimeDate q
      rw [hb]
      rfl
    · simp [writesTo, beq_eq_false_iff_ne.mpr (Ne.symm hne)]

/-- Effects of one step mention only that step's record. -/
theorem processOne_tags {gen : GenFn} {sp base today c n : String}
    {sig : Signature} {fs : Fs} {sig' : Signature} {fs' : Fs} {δ : List Effect}
    (h : processOne gen sp base today c n sig fs = .ok (sig', fs', δ))
    (c' n' : String) (hne : ¬(c' = c ∧ n' = n)) :
    callsFor c' n' δ = false ∧ parseFailFor c' n' δ = false := by
  obtain ⟨p, hpath, hcase⟩ := processOne_cases _ _ _ _ _ _ _ _ _ _ _ h
  have hcn : (c == c' && n == n') = false := by
    rcases not_and_or.mp hne with hc | hn
    · simp [beq_eq_false_iff_ne.mpr (Ne.symm hc)]
    · simp [beq_eq_false_iff_ne.mpr (Ne.symm hn)]
  rcases hcase with ⟨_, _, _, hd⟩ | ⟨_, _, _, hd⟩ | ⟨d, src, _, _, _, hd⟩ <;>
    subst hd <;> simp [callsFor, parseFailFor, hcn]

/-- If a step logged a swallowed parse failure, it left its record
unchanged. -/
theorem processOne_parseFail {gen : GenFn} {sp base today c n : String}
    {sig : Signature} {fs : Fs} {sig' : Signature} {fs' : Fs} {δ : List Effect}
    (h : processOne gen sp base today c n sig fs = .ok (sig', fs', δ))
    (hpf : parseFailFor c n δ = true) : sig' = sig := by
  obtain ⟨p, hpath, hcase⟩ := processOne_cases _ _ _ _ _ _ _ _ _ _ _ h
  rcases hcase with ⟨_, hs, _, hd⟩ | ⟨_, hs, _, hd⟩ | ⟨d, src, _, hs, _, hd⟩
  · subst hd; simp [parseFailFor] at hpf
  · exact hs
  · subst hd; simp [parseFailFor] at hpf

theorem runEntries_preserves {gen : GenFn} {sp base today c : String} :
    ∀ {entries : List (String × Signature)} {fs : Fs} {q : String}
      {out : List (String × Signature)} {fs' : Fs} {δ : List Effect},
      fs.pathExists q = true →
      runEntries gen sp base today c entries fs = .ok (out, fs', δ) →
      fs'.pathExists q = true ∧ fs'.mtimeDate q = fs.mtimeDate q
        ∧ writesTo q δ = false := by
  intro entries
  induction entries with
  | nil =>
    intro fs q out fs' δ hq h
    simp only [runEntries, Except.ok.injEq, Prod.mk.injEq] at h
    obtain ⟨h1, h2, h3⟩ := h
    subst h2; subst h3
    exact ⟨hq, rfl, rfl⟩
  | cons head rest ih =>
    intro fs q out fs' δ hq h
    obtain ⟨n0, sig0⟩ := head
    simp only [runEntries] at h
    cases hpo : processOne gen sp base today c n0 sig0 fs with
    | error e => rw [hpo] at h; exact absurd h (by simp)
    | ok res =>
      obtain ⟨sig1, fs1, δ1⟩ := res
      rw [hpo] at h
      simp only [] at h
      cases hre : runEntries gen sp base today c rest fs1 with
      | error e => rw [hre] at h; exact absurd h (by simp)
      | ok res2 =>
        obtain ⟨rest', fs2, δ2⟩ := res2
        rw [hre] at h
        simp only [Except.ok.injEq, Prod.mk.injEq] at h
        obtain ⟨hout, hfs, hδ⟩ := h
        subst hout; subst hfs; subst hδ
        obtain ⟨hq1, hm1, hw1⟩ := processOne_preserves hq hpo
        obtain ⟨hq2, hm2, hw2⟩ := ih hq1 hre
        refine ⟨hq2, by rw [hm2, hm1], ?_⟩
        rw [writesTo_append, hw1, hw2]
        rfl

theorem runCats_preserves {gen : GenFn} {sp base today : String} :
    ∀ {reg : Registry} {fs : Fs} {q : String} {out : Registry} {fs' : Fs}
      {δ : List Effect},
      fs.pathExists q = true →
      runCats gen sp base today reg fs = .ok (out, fs', δ) →
      fs'.pathExists q = true ∧ fs'.mtimeDate q = fs.mtimeDate q
        ∧ writesTo q δ = false := by
  intro reg
  induction reg with
  | nil =>
    intro fs q out fs' δ hq h
    simp only [runCats, Except.ok.injEq, Prod.mk.injEq] at h
    obtain ⟨h1, h2, h3⟩ := h
    subst h2; subst h3
    exact ⟨hq, rfl, rfl⟩
  | cons head rest ih =>
    intro fs q out fs' δ hq h
    obtain ⟨c0, es0⟩ := head
    simp only [runCats] at h
    cases hre : runEntries gen sp base today c0 es0 fs with
    | error e => rw [hre] at h; exact absurd h (by simp)
    | ok res =>
      obtain ⟨es0', fs1, δ1⟩ := res
      rw [hre] at h
      simp only [] at h
      cases hrc : runCats gen sp base today rest fs1 with
      | error e => rw [hrc] at h; exact absurd h (by simp)
      | ok res2 =>
        obtain ⟨rest', fs2, δ2⟩ := res2
        rw [hrc] at h
        simp only [Except.ok.injEq, Prod.mk.injEq] at h
        obtain ⟨hout, hfs, hδ⟩ := h
        subst hout; subst hfs; subst hδ
        obtain ⟨hq1, hm1, hw1⟩ := runEntries_preserves hq hre
        obtain ⟨hq2, hm2, hw2⟩ := ih hq1 hrc
        refine ⟨hq2, by rw [hm2, hm1], ?_⟩
        rw [writesTo_append, hw1, hw2]
        rfl

theorem runEntries_tags {gen : GenFn} {sp base today c : String} :
    ∀ {entries : List (String × Signature)} {fs : Fs}
      {out : List (String × Signature)} {fs' : Fs} {δ : List Effect},
      runEntries gen sp base today c entries fs = .ok (out, fs', δ) →
      ∀ c' n' : String, (c' ≠ c ∨ n' ∉ entries.map Prod.fst) →
      callsFor c' n' δ = false ∧ parseFailFor c' n' δ = false := by
  intro entries
  induction entries with
  | nil =>
    intro fs out fs' δ h c' n' hn
    simp only [runEntries, Except.ok.injEq, Prod.mk.injEq] at h
    obtain ⟨h1, h2, h3⟩ := h
    subst h3
    exact ⟨rfl, rfl⟩
  | cons head rest ih =>
    intro fs out fs' δ h c' n' hn
    obtain ⟨n0, sig0⟩ := head
    simp only [runEntries] at h
    cases hpo : processOne gen sp base today c n0 sig0 fs with
    | error e => rw [hpo] at h; exact absurd h (by simp)
    | ok res =>
      obtain ⟨sig1, fs1, δ1⟩ := res
      rw [hpo] at h
      simp only [] at h
      cases hre : runEntries gen sp base today c rest fs1 with
      | error e => rw [hre] at h; exact absurd h (by simp)
      | ok res2 =>
        obtain ⟨rest', fs2, δ2⟩ := res2
        rw [hre] at h
        simp only [Except.ok.injEq, Prod.mk.injEq] at h
        obtain ⟨hout, hfs, hδ⟩ := h
        subst hδ
        have hne0 : ¬(c' = c ∧ n' = n0) := by
          rcases hn with hc | hmem
          · exact fun hcn => hc hcn.1
          · refine fun hcn => hmem ?_
            simp only [List.map_cons, List.mem_cons]
            exact Or.inl hcn.2
        have hn' : c' ≠ c ∨ n' ∉ rest.map Prod.fst := by
          rcases hn with hc | hmem
          · exact Or.inl hc
          · refine Or.inr (fun hm => hmem ?_)
            simp only [List.map_cons, List.mem_cons]
            exact Or.inr hm
        obtain ⟨ht1, hp1⟩ := processOne_tags hpo c' n' hne0
        obtain ⟨ht2, hp2⟩ := ih hre c' n' hn'
        rw [callsFor_append, parseFailFor_append, ht1, ht2, hp1, hp2]
        exact ⟨rfl, rfl⟩

theorem runCats_tags {gen : GenFn} {sp base today : String} :
    ∀ {reg : Registry} {fs : Fs} {out : Registry} {fs' : Fs} {δ : List Effect},
      runCats gen sp base today reg fs = .ok (out, fs', δ) →
      ∀ c' n' : String, c' ∉ reg.map Prod.fst →
      callsFor c' n' δ = false ∧ parseFailFor c' n' δ = false := by
  intro reg
  induction reg with
  | nil =>
    intro fs out fs' δ h c' n' hc
    simp only [runCats, Except.ok.injEq, Prod.mk.injEq] at h
    obtain ⟨h1, h2, h3⟩ := h
    subst h3
    exact ⟨rfl, rfl⟩
  | cons head rest ih =>
    intro fs out fs' δ h c' n' hc
    obtain ⟨c0, es0⟩ := head
    simp only [runCats] at h
    cases hre : runEntries gen sp base today c0 es0 fs with
    | error e => rw [hre] at h; exact absurd h (by simp)
    | ok res =>
      obtain ⟨es0', fs1, δ1⟩ := res
      rw [hre] at h
      simp only [] at h
      cases hrc : runCats gen sp base today rest fs1 with
      | error e => rw [hrc] at h; exact absurd h (by simp)
      | ok res2 =>
        obtain ⟨rest', fs2, δ2⟩ := res2
        rw [hrc] at h
        simp only [Except.ok.injEq, Prod.mk.injEq] at h
        obtain ⟨hout, hfs, hδ⟩ := h
        subst hδ
        have hc0 : c' ≠ c0 := by
          intro he
          exact hc (by simp [he])
        have hcrest : c' ∉ rest.map Prod.fst := by
          intro hm
          exact hc (by simp [hm])
        obtain ⟨ht1, hp1⟩ := runEntries_tags hre c' n' (Or.inl hc0)
        obtain ⟨ht2, hp2⟩ := ih hrc c' n' hcrest
        rw [callsFor_append, parseFailFor_append, ht1, ht2, hp1, hp2]
        exact ⟨rfl, rfl⟩

/-- Within one category: a record whose artifact already exists at the
start is reconciled from the (initial) modification date, is never sent
to the generator, never warned about, and its artifact is never
rewritten. -/
theorem runEntries_exists_case {gen : GenFn} {sp base today c : String} :
    ∀ {entries : List (String × Signature)} {fs : Fs} {n : String}
      {sig : Signature} {p : String} {out : List (String × Signature)}
      {fs' : Fs} {δ : List Effect},
      (entries.map Prod.fst).Nodup →
      lookupN entries n = some sig →
      sig.path = .str p →
      fs.pathExists (pyJoin base p) = true →
      runEntries gen sp base today c entries fs = .ok (out, fs', δ) →
      lookupN out n
        = some { sig with last_updated := .str (fs.mtimeDate (pyJoin base p)) }
      ∧ callsFor c n δ = false ∧ parseFailFor c n δ = false
      ∧ writesTo (pyJoin base p) δ = false := by
  intro entries
  induction entries with
  | nil =>
    intro fs n sig p out fs' δ hnd hlook hp hq h
    simp [lookupN] at hlook
  | cons head rest ih =>
    intro fs n sig p out fs' δ hnd hlook hp hq h
    obtain ⟨n0, sig0⟩ := head
    simp only [runEntries] at h
    cases hpo : processOne gen sp base today c n0 sig0 fs with
    | error e => rw [hpo] at h; exact absurd h (by simp)
    | ok res =>
      obtain ⟨sig1, fs1, δ1⟩ := res
      rw [hpo] at h
      simp only [] at h
      cases hre : runEntries gen sp base today c rest fs1 with
      | error e => rw [hre] at h; exact absurd h (by simp)
      | ok res2 =>
        obtain ⟨rest', fs2, δ2⟩ := res2
        rw [hre] at h
        simp only [Except.ok.injEq, Prod.mk.injEq] at h
        obtain ⟨hout, hfs, hδ⟩ := h
        subst hout; subst hδ
        have hnd0 : n0 ∉ rest.map Prod.fst ∧ (rest.map Prod.fst).Nodup := by
          simpa using hnd
        by_cases hn0 : n0 = n
        · subst hn0
          have hs0 : sig0 = sig := by
            rw [lookupN_cons_self] at hlook
            exact Option.some_inj.mp hlook
          subst hs0
          obtain ⟨p', hpath', hcase⟩ := processOne_cases _ _ _ _ _ _ _ _ _ _ _ hpo
          have hpp : p' = p := by
            rw [hp] at hpath'
            injection hpath' with hpp
            exact hpp.symm
          subst hpp
          rcases hcase with ⟨hex, hs1, hf1, hd1⟩ | ⟨hex, _, _, _⟩
            | ⟨d, src, hex, _, _, _⟩
          · subst hs1; subst hf1; subst hd1
            obtain ⟨ht2, hp2⟩ := runEntries_tags hre c n0 (Or.inr hnd0.1)
            obtain ⟨_, _, hw2⟩ := runEntries_preserves hq hre
            refine ⟨?_, ?_, ?_, ?_⟩
            · rw [lookupN_cons_self]
            · rw [List.nil_append, ht2]
            · rw [List.nil_append, hp2]
            · rw [List.nil_append, hw2]
          · rw [hq] at hex; cases hex
          · rw [hq] at hex; cases hex
        · have hlook' : lookupN rest n = some sig := by
            rw [lookupN_cons_ne hn0] at hlook
            exact hlook
          obtain ⟨hq1, hm1, hw1⟩ := processOne_preserves hq hpo
          obtain ⟨hl2, hc2, hpf2, hw2⟩ := ih hnd0.2 hlook' hp hq1 hre
          obtain ⟨ht1, hp1⟩ := processOne_tags hpo c n
            (fun hcn => hn0 hcn.2.symm)
          refine ⟨?_, ?_, ?_, ?_⟩
          · rw [lookupN_cons_ne hn0, hl2, hm1]
          · rw [callsFor_append, ht1, hc2]
            rfl
          · rw [parseFailFor_append, hp1, hpf2]
            rfl
          · rw [writesTo_append, hw1, hw2]
            rfl

/-- Across all categories: the reconcile behaviour of
`runEntries_exists_case`, located through a well-formed registry. -/
theorem runCats_exists_case {gen : GenFn} {sp base today : String} :
    ∀ {reg : Registry} {fs : Fs} {c n : String}
      {entries : List (String × Signature)} {sig : Signature} {p : String}
      {out : Registry} {fs' : Fs} {δ : List Effect},
      (reg.map Prod.fst).Nodup →
      lookupCat reg c = some entries →
      (entries.map Prod.fst).Nodup →
      lookupN entries n = some sig →
      sig.path = .str p →
      fs.pathExists (pyJoin base p) = true →
      runCats gen sp base today reg fs = .ok (out, fs', δ) →
      lookupSig out c n
        = some { sig with last_updated := .str (fs.mtimeDate (pyJoin base p)) }
      ∧ callsFor c n δ = false ∧ parseFailFor c n δ = false
      ∧ writesTo (pyJoin base p) δ = false := by
  intro reg
  induction reg with
  | nil =>
    intro fs c n entries sig p out fs' δ hndc hcat hnde hlook hp hq h
    simp [lookupCat] at hcat
  | cons head rest ih =>
    intro fs c n entries sig p out fs' δ hndc hcat hnde hlook hp hq h
    obtain ⟨c0, es0⟩ := head
    simp only [runCats] at h
    cases hre : runEntries gen sp base today c0 es0 fs with
    | error e => rw [hre] at h; exact absurd h (by simp)
    | ok res =>
      obtain ⟨es0', fs1, δ1⟩ := res
      rw [hre] at h
      simp only [] at h
      cases hrc : runCats gen sp base today rest fs1 with
      | error e => rw [hrc] at h; exact absurd h (by simp)
      | ok res2 =>
        obtain ⟨rest', fs2, δ2⟩ := res2
        rw [hrc] at h
        simp only [Except.ok.injEq, Prod.mk.injEq] at h
        obtain ⟨hout, hfs, hδ⟩ := h
        subst hout; subst hδ
        have hndc0 : c0 ∉ rest.map Prod.fst ∧ (rest.map Prod.fst).Nodup := by
          simpa using hndc
        by_cases hc0 : c0 = c
        · subst hc0
          have hes : es0 = entries := by
            rw [lookupCat_cons_self] at hcat
            exact Option.some_inj.mp hcat
          subst hes
          obtain ⟨hl1, hc1, hpf1, hw1⟩ :=
            runEntries_exists_case hnde hlook hp hq hre
          obtain ⟨hq1, _, hw1'⟩ := runEntries_preserves hq hre
          obtain ⟨ht2, hp2⟩ := runCats_tags hrc c0 n hndc0.1
          obtain ⟨_, _, hw2⟩ := runCats_preserves hq1 hrc
          refine ⟨?_, ?_, ?_, ?_⟩
          · rw [lookupSig_eq, lookupCat_cons_self]
            exact hl1
          · rw [callsFor_append, hc1, ht2]
            rfl
          · rw [parseFailFor_append, hpf1, hp2]
            rfl
          · rw [writesTo_append, hw1, hw2]
            rfl
        · have hcat' : lookupCat rest c = some entries := by
            rw [lookupCat_cons_ne hc0] at hcat
            exact hcat
          obtain ⟨hq1, hm1, hw1⟩ := runEntries_preserves hq hre
          obtain ⟨hl2, hc2, hpf2, hw2⟩ :=
            ih hndc0.2 hcat' hnde hlook hp hq1 hrc
          obtain ⟨ht1, hp1⟩ := runEntries_tags hre c n (Or.inl (fun he => hc0 he.symm))
          refine ⟨?_, ?_, ?_, ?_⟩
          · rw [lookupSig_eq, lookupCat_cons_ne hc0, ← lookupSig_eq, hl2, hm1]
          · rw [callsFor_append, ht1, hc2]
            rfl
          · rw [parseFailFor_append, hp1, hpf2]
            rfl
          · rw [writesTo_append, hw1, hw2]
            rfl

/-- Within one category: a record for which a swallowed parse failure was
logged came out unchanged. -/
theorem runEntries_parseFail_case {gen : GenFn} {sp base today c : String} :
    ∀ {entries : List (String × Signature)} {fs : Fs} {n : String}
      {sig : Signature} {out : List (String × Signature)} {fs' : Fs}
      {δ : List Effect},
      (entries.map Prod.fst).Nodup →
      lookupN entries n = some sig →
      runEntries gen sp base today c entries fs = .ok (out, fs', δ) →
      parseFailFor c n δ = true →
      lookupN out n = some sig := by
  intro entries
  induction entries with
  | nil =>
    intro fs n sig out fs' δ hnd hlook h hpf
    simp [lookupN] at hlook
  | cons head rest ih =>
    intro fs n sig out fs' δ hnd hlook h hpf
    obtain ⟨n0, sig0⟩ := head
    simp only [runEntries] at h
    cases hpo : processOne gen sp base today c n0 sig0 fs with
    | error e => rw [hpo] at h; exact absurd h (by simp)
    | ok res =>
      obtain ⟨sig1, fs1, δ1⟩ := res
      rw [hpo] at h
      simp only [] at h
      cases hre : runEntries gen sp base today c rest fs1 with
      | error e => rw [hre] at h; exact absurd h (by simp)
      | ok res2 =>
        obtain ⟨rest', fs2, δ2⟩ := res2
        rw [hre] at h
        simp only [Except.ok.injEq, Prod.mk.injEq] at h
        obtain ⟨hout, hfs, hδ⟩ := h
        subst hout; subst hδ
        have hnd0 : n0 ∉ rest.map Prod.fst ∧ (rest.map Prod.fst).Nodup := by
          simpa using hnd
        by_cases hn0 : n0 = n
        · subst hn0
          have hs0 : sig0 = sig := by
            rw [lookupN_cons_self] at hlook
            exact Option.some_inj.mp hlook
          subst hs0
          obtain ⟨_, hp2⟩ := runEntries_tags hre c n0 (Or.inr hnd0.1)
          rw [parseFailFor_append, hp2, Bool.or_false] at hpf
          have hs1 : sig1 = sig0 := processOne_parseFail hpo hpf
          subst hs1
          rw [lookupN_cons_self]
        · obtain ⟨_, hp1⟩ := processOne_tags hpo c n (fun hcn => hn0 hcn.2.symm)
          rw [parseFailFor_append, hp1, Bool.false_or] at hpf
          have hlook' : lookupN rest n = some sig := by
            rw [lookupN_cons_ne hn0] at hlook
            exact hlook
          rw [lookupN_cons_ne hn0]
          exact ih hnd0.2 hlook' hre hpf

/-- Across all categories: a record for which a swallowed parse failure
was logged came out unchanged. -/
theorem runCats_parseFail_case {gen : GenFn} {sp base today : String} :
    ∀ {reg : Registry} {fs : Fs} {c n : String}
      {entries : List (String × Signature)} {sig : Signature}
      {out : Registry} {fs' : Fs} {δ : List Effect},
      (reg.map Prod.fst).Nodup →
      lookupCat reg c = some entries →
      (entries.map Prod.fst).Nodup →
      lookupN entries n = some sig →
      runCats gen sp base today reg fs = .ok (out, fs', δ) →
      parseFailFor c n δ = true →
      lookupSig out c n = some sig := by
  intro reg
  induction reg with
  | nil =>
    intro fs c n entries sig out fs' δ hndc hcat hnde hlook h hpf
    simp [lookupCat] at hcat
  | cons head rest ih =>
    intro fs c n entries sig out fs' δ hndc hcat hnde hlook h hpf
    obtain ⟨c0, es0⟩ := head
    simp only [runCats] at h
    cases hre : runEntries gen sp base today c0 es0 fs with
    | error e => rw [hre] at h; exact absurd h (by simp)
    | ok res =>
      obtain ⟨es0', fs1, δ1⟩ := res
      rw [hre] at h
      simp only [] at h
      cases hrc : runCats gen sp base today rest fs1 with
      | error e => rw [hrc] at h; exact absurd h (by simp)
      | ok res2 =>
        obtain ⟨rest', fs2, δ2⟩ := res2
        rw [hrc] at h
        simp only [Except.ok.injEq, Prod.mk.injEq] at h
        obtain ⟨hout, hfs, hδ⟩ := h
        subst hout; subst hδ
        have hndc0 : c0 ∉ rest.map Prod.fst ∧ (rest.map Prod.fst).Nodup := by
          simpa using hndc
        by_cases hc0 : c0 = c
        · subst hc0
          have hes : es0 = entries := by
            rw [lookupCat_cons_self] at hcat
            exact Option.some_inj.mp hcat
          subst hes
          obtain ⟨_, hp2⟩ := runCats_tags hrc c0 n hndc0.1
          rw [parseFailFor_append, hp2, Bool.or_false] at hpf
          rw [lookupSig_eq, lookupCat_cons_self]
          exact runEntries_parseFail_case hnde hlook hre hpf
        · obtain ⟨_, hp1⟩ := runEntries_tags hre c n (Or.inl (fun he => hc0 he.symm))
          rw [parseFailFor_append, hp1, Bool.false_or] at hpf
          have hcat' : lookupCat rest c = some entries := by
            rw [lookupCat_cons_ne hc0] at hcat
            exact hcat
          rw [lookupSig_eq, lookupCat_cons_ne hc0, ← lookupSig_eq]
          exact ih hndc0.2 hcat' hnde hlook hrc hpf

/-! ## Claim C2: existing artifacts are reconciled, not regenerated -/

/-- C2: in a batch run over a well-formed registry, a record whose
artifact already exists on disk (at batch start) gets `last_updated` set
to the artifact's modification date, keeps its `seemore`, is never sent
to the Generation Client, and its artifact is never overwritten. -/
theorem c2_existing_artifact_reconciled
    (gen : GenFn) (sp base today : String) (reg : Registry) (fs : Fs)
    (c n : String) (sig : Signature) (p : String)
    (reg' : Registry) (fs' : Fs) (tr : List Effect)
    (hwf : regWF reg)
    (hsig : lookupSig reg c n = some sig)
    (hp : sig.path = .str p)
    (hq : fs.pathExists (pyJoin base p) = true)
    (hrun : run_all_updates gen sp base today reg fs = .ok (reg', fs', tr)) :
    lookupSig reg' c n
      = some { sig with last_updated := .str (fs.mtimeDate (pyJoin base p)) }
    ∧ ({ sig with last_updated := .str (fs.mtimeDate (pyJoin base p)) }).seemore
        = sig.seemore
    ∧ callsFor c n tr = false
    ∧ writesTo (pyJoin base p) tr = false := by
  simp only [run_all_updates] at hrun
  cases hrc : runCats gen sp base today reg fs with
  | error e => rw [hrc] at hrun; exact absurd hrun (by simp)
  | ok res =>
    obtain ⟨reg2, fs2, δ⟩ := res
    rw [hrc] at hrun
    simp only [] at hrun
    simp only [Except.ok.injEq, Prod.mk.injEq] at hrun
    obtain ⟨h1, h2, h3⟩ := hrun
    subst h1; subst h2; subst h3
    rw [lookupSig_eq] at hsig
    cases hcat : lookupCat reg c with
    | none => rw [hcat] at hsig; simp at hsig
    | some entries =>
      rw [hcat] at hsig
      have hlook : lookupN entries n = some sig := hsig
      have hnde : (entries.map Prod.fst).Nodup := by
        simp only [lookupCat] at hcat
        cases hf : reg.find? (fun pr => pr.1 == c) with
        | none => rw [hf] at hcat; simp at hcat
        | some pr =>
          rw [hf] at hcat
          have hes : pr.2 = entries := by simpa using hcat
          have hmem := hwf.2 pr (List.mem_of_find?_eq_some hf)
          rw [hes] at hmem
          exact hmem
      obtain ⟨hl, hc1, hpf1, hw1⟩ :=
        runCats_exists_case hwf.1 hcat hnde hlook hp hq hrc
      refine ⟨hl, rfl, ?_, ?_⟩
      · rw [callsFor_append, hc1]
        rfl
      · rw [writesTo_append, hw1]
        rfl

/-- Witness for `c2_existing_artifact_reconciled`: the spec's scenario —
`a/Foo.md` exists with modification date 2023-01-01; the batch run
(whose generator would fail if it were ever consulted) completes,
reconciles `last_updated`, and never calls or writes. -/
theorem c2_existing_artifact_reconciled_witness :
    lookupSig [("fn", [("Foo", { c2Sig with last_updated := .str "2023-01-01" })])]
        "fn" "Foo" = some { c2Sig with last_updated := .str "2023-01-01" }
    ∧ ({ c2Sig with last_updated := .str "2023-01-01" } : Signature).seemore
        = c2Sig.seemore
    ∧ callsFor "fn" "Foo"
        [Effect.writeRegistry (save_to_file
          [("fn", [("Foo", { c2Sig with last_updated := .str "2023-01-01" })])])]
        = false
    ∧ writesTo "/base/a/Foo.md"
        [Effect.writeRegistry (save_to_file
          [("fn", [("Foo", { c2Sig with last_updated := .str "2023-01-01" })])])]
        = false :=
  c2_existing_artifact_reconciled c2Gen "" "/base" "2025-02-03" c2Reg c2Fs
    "fn" "Foo" c2Sig "a/Foo.md"
    [("fn", [("Foo", { c2Sig with last_updated := .str "2023-01-01" })])]
    c2Fs
    [Effect.writeRegistry (save_to_file
      [("fn", [("Foo", { c2Sig with last_updated := .str "2023-01-01" })])])]
    ⟨by decide, by decide⟩ rfl rfl rfl rfl

/-! ## Claim C4: records with an empty `path` -/

/-- C4 (counterexample): `run_all_updates` has no empty-`path` check.
For a record with `path = ""`, `project_base / ""` is the project base
directory itself, which exists — so the batch run mutates the record,
setting `last_updated` to the base directory's modification date,
instead of skipping it unchanged as the claim states. -/
theorem c4_empty_path_mutates_record :
    runReg (run_all_updates c4Gen "" "/base" "2025-02-03" c4Reg c4Fs)
      = some [("fn", [("Bar", { c4Sig with last_updated := .str "2022-05-05" })])]
    ∧ Json.str "2022-05-05" ≠ c4Sig.last_updated :=
  ⟨rfl, fun h => by injection h with h2; exact absurd h2 (by decide)⟩

/-- C4 (amended): a record whose `path` is empty is not skipped and gets
no warning.  The batch pipeline does not raise: it treats the project
base directory as the record's artifact, and since that directory exists
it takes the reconcile branch — `last_updated` is set from the base
directory's modification date, `seemore` is untouched, no generation
call and no parse-failure warning occur for the record, and nothing is
written at the base path. -/
theorem c4_empty_path_reconciles_from_base
    (gen : GenFn) (sp base today : String) (reg : Registry) (fs : Fs)
    (c n : String) (sig : Signature)
    (reg' : Registry) (fs' : Fs) (tr : List Effect)
    (hwf : regWF reg)
    (hsig : lookupSig reg c n = some sig)
    (hp : sig.path = .str "")
    (hq : fs.pathExists (pyJoin base "") = true)
    (hrun : run_all_updates gen sp base today reg fs = .ok (reg', fs', tr)) :
    lookupSig reg' c n
      = some { sig with last_updated := .str (fs.mtimeDate (pyJoin base "")) }
    ∧ ({ sig with last_updated := .str (fs.mtimeDate (pyJoin base "")) }).seemore
        = sig.seemore
    ∧ callsFor c n tr = false
    ∧ parseFailFor c n tr = false := by
  simp only [run_all_updates] at hrun
  cases hrc : runCats gen sp base today reg fs with
  | error e => rw [hrc] at hrun; exact absurd hrun (by simp)
  | ok res =>
    obtain ⟨reg2, fs2, δ⟩ := res
    rw [hrc] at hrun
    simp only [] at hrun
    simp only [Except.ok.injEq, Prod.mk.injEq] at hrun
    obtain ⟨h1, h2, h3⟩ := hrun
    subst h1; subst h2; subst h3
    rw [lookupSig_eq] at hsig
    cases hcat : lookupCat reg c with
    | none => rw [hcat] at hsig; simp at hsig
    | some entries =>
      rw [hcat] at hsig
      have hlook : lookupN entries n = some sig := hsig
      have hnde : (entries.map Prod.fst).Nodup := by
        simp only [lookupCat] at hcat
        cases hf : reg.find? (fun pr => pr.1 == c) with
        | none => rw [hf] at hcat; simp at hcat
        | some pr =>
          rw [hf] at hcat
          have hes : pr.2 = entries := by simpa using hcat
          have hmem := hwf.2 pr (List.mem_of_find?_eq_some hf)
          rw [hes] at hmem
          exact hmem
      obtain ⟨hl, hc1, hpf1, hw1⟩ :=
        runCats_exists_case hwf.1 hcat hnde hlook hp hq hrc
      refine ⟨hl, rfl, ?_, ?_⟩
      · rw [callsFor_append, hc1]
        rfl
      · rw [parseFailFor_append, hpf1]
        rfl

/-- Witness for `c4_empty_path_reconciles_from_base`: the concrete run of
`c4_empty_path_mutates_record`, through the theorem. -/
theorem c4_empty_path_reconciles_from_base_witness :
    lookupSig [("fn", [("Bar", { c4Sig with last_updated := .str "2022-05-05" })])]
        "fn" "Bar" = some { c4Sig with last_updated := .str "2022-05-05" }
    ∧ ({ c4Sig with last_updated := .str "2022-05-05" } : Signature).seemore
        = c4Sig.seemore
    ∧ callsFor "fn" "Bar"
        [Effect.writeRegistry (save_to_file
          [("fn", [("Bar", { c4Sig with last_updated := .str "2022-05-05" })])])]
        = false
    ∧ parseFailFor "fn" "Bar"
        [Effect.writeRegistry (save_to_file
          [("fn", [("Bar", { c4Sig with last_updated := .str "2022-05-05" })])])]
        = false :=
  c4_empty_path_reconciles_from_base c4Gen "" "/base" "2025-02-03" c4Reg c4Fs
    "fn" "Bar" c4Sig
    [("fn", [("Bar", { c4Sig with last_updated := .str "2022-05-05" })])]
    c4Fs
    [Effect.writeRegistry (save_to_file
      [("fn", [("Bar", { c4Sig with last_updated := .str "2022-05-05" })])])]
    ⟨by decide, by decide⟩ rfl rfl rfl rfl

/-! ## Claim C1: per-record failure handling in batch mode -/

/-- C1 (counterexample): only `_extract_parts` sits inside the `try` of
`run_all_updates`; `_call_chatgpt` does not.  With one record whose
artifact is absent and a generator whose external call fails
(transport/auth/service — the spec's `GenerationServiceError`), the batch
aborts with that error instead of logging and continuing, and the final
registry save never happens. -/
theorem c1_service_error_aborts_batch :
    run_all_updates c1GenFail "" "/base" "2025-02-03" c1Reg c1Fs
      = .error .genService :=
  rfl

/-- C1 (amended): per-record recovery holds only for response-parsing
failures.  In a completed batch run over a well-formed registry, a record
for which a parse failure was logged is left completely unchanged, and
the batch continued to the end (the registry file was saved).  A failure
of the external call itself is not caught and aborts the batch
(`c1_service_error_aborts_batch`). -/
theorem c1_parse_failure_skips_record
    (gen : GenFn) (sp base today : String) (reg : Registry) (fs : Fs)
    (c n : String) (sig : Signature)
    (reg' : Registry) (fs' : Fs) (tr : List Effect)
    (hwf : regWF reg)
    (hsig : lookupSig reg c n = some sig)
    (hrun : run_all_updates gen sp base today reg fs = .ok (reg', fs', tr))
    (hpf : parseFailFor c n tr = true) :
    lookupSig reg' c n = some sig ∧ wroteRegistry tr = true := by
  simp only [run_all_updates] at hrun
  cases hrc : runCats gen sp base today reg fs with
  | error e => rw [hrc] at hrun; exact absurd hrun (by simp)
  | ok res =>
    obtain ⟨reg2, fs2, δ⟩ := res
    rw [hrc] at hrun
    simp only [] at hrun
    simp only [Except.ok.injEq, Prod.mk.injEq] at hrun
    obtain ⟨h1, h2, h3⟩ := hrun
    subst h1; subst h2; subst h3
    constructor
    · rw [parseFailFor_append, Bool.or_eq_true] at hpf
      have hpfδ : parseFailFor c n δ = true := by
        rcases hpf with hpf | hpf
        · exact hpf
        · simp [parseFailFor] at hpf
      rw [lookupSig_eq] at hsig
      cases hcat : lookupCat reg c with
      | none => rw [hcat] at hsig; simp at hsig
      | some entries =>
        rw [hcat] at hsig
        have hlook : lookupN entries n = some sig := hsig
        have hnde : (entries.map Prod.fst).Nodup := by
          simp only [lookupCat] at hcat
          cases hf : reg.find? (fun pr => pr.1 == c) with
          | none => rw [hf] at hcat; simp at hcat
          | some pr =>
            rw [hf] at hcat
            have hes : pr.2 = entries := by simpa using hcat
            have hmem := hwf.2 pr (List.mem_of_find?_eq_some hf)
            rw [hes] at hmem
            exact hmem
        exact runCats_parseFail_case hwf.1 hcat hnde hlook hrc hpfδ
    · rw [wroteRegistry_append]
      have : wroteRegistry [Effect.writeRegistry (save_to_file reg2)] = true := rfl
      rw [this, Bool.or_true]

/-- Witness for `c1_parse_failure_skips_record`: one record, artifact
absent, generator answers unparsable text — the run completes, logs the
parse failure, leaves the record untouched and still saves the
registry. -/
theorem c1_parse_failure_skips_record_witness :
    lookupSig c1Reg "fn" "Foo" = some c1Sig
    ∧ wroteRegistry
        [Effect.genCall "fn" "Foo" (build_chat_messages "" c1Sig),
         Effect.parseFail "fn" "Foo",
         Effect.writeRegistry (save_to_file c1Reg)] = true :=
  c1_parse_failure_skips_record c1GenBad "" "/base" "2025-02-03" c1Reg c1Fs
    "fn" "Foo" c1Sig c1Reg c1Fs
    [Effect.genCall "fn" "Foo" (build_chat_messages "" c1Sig),
     Effect.parseFail "fn" "Foo",
     Effect.writeRegistry (save_to_file c1Reg)]
    ⟨by decide, by decide⟩ rfl rfl rfl

/-! ## Claim C9: `test_update_single` never saves the registry -/

theorem update_ok_eq {reg : Registry} {sig2 : Signature} {reg2 : Registry}
    (hupd : update_signature_in_memory reg sig2 = .ok reg2) :
    reg2 = replaceSig reg sig2.category sig2.name sig2 := by
  unfold update_signature_in_memory at hupd
  cases hcat : lookupCat reg sig2.category with
  | none => rw [hcat] at hupd; exact absurd hupd (by simp)
  | some es =>
    rw [hcat] at hupd
    simp only [] at hupd
    cases hX : es.any (fun pr => pr.1 == sig2.name) with
    | false =>
      rw [hX] at hupd
      simp at hupd
    | true =>
      rw [hX] at hupd
      simp at hupd
      exact hupd.symm

theorem replaceSig_lookup_self {reg : Registry} {c n : String}
    {sig old : Signature} (h : lookupSig reg c n = some old) :
    lookupSig (replaceSig reg c n sig) c n = some sig := by
  rw [lookupSig_eq] at h
  rw [lookupSig_eq]
  cases hcat : lookupCat reg c with
  | none => rw [hcat] at h; simp at h
  | some es =>
    rw [hcat] at h
    have h' : lookupN es n = some old := h
    have hcat2 : lookupCat (replaceSig reg c n sig) c
        = some (es.map (fun qr => (qr.1, if qr.1 == n then sig else qr.2))) := by
      simp only [lookupCat, replaceSig] at hcat ⊢
      rw [find?_map_keyed]
      cases hfind : reg.find? (fun pr => pr.1 == c) with
      | none => rw [hfind] at hcat; simp at hcat
      | some pr =>
        rw [hfind] at hcat
        have hbeq : (pr.1 == c) = true := by
          simpa using List.find?_some hfind
        have hes : pr.2 = es := by simpa using hcat
        subst hes
        show some (if (pr.1 == c) = true then
            pr.2.map (fun qr => (qr.1, if qr.1 == n then sig else qr.2))
          else pr.2)
          = some (pr.2.map (fun qr => (qr.1, if qr.1 == n then sig else qr.2)))
        rw [hbeq]
        rfl
    rw [hcat2]
    show lookupN (es.map (fun qr => (qr.1, if qr.1 == n then sig else qr.2))) n
      = some sig
    simp only [lookupN]
    rw [find?_map_keyed]
    cases hfind2 : es.find? (fun qr => qr.1 == n) with
    | none => simp [lookupN, hfind2] at h'
    | some qr =>
      have hbeq : (qr.1 == n) = true := by
        simpa using List.find?_some hfind2
      show some (if (qr.1 == n) = true then sig else qr.2) = some sig
      rw [hbeq]
      rfl

/-- C9: the single-record ("test") operation always calls the generator,
writes exactly the artifact file, and replaces the record in memory
(`seemore` and `last_updated` updated), but its effect trace contains no
registry write: `save_to_file` is never invoked, so the on-disk registry
JSON is untouched. -/
theorem c9_single_update_no_registry_write
    (gen : GenFn) (sp base today : String) (reg : Registry) (fs : Fs)
    (c n : String) (sig : Signature) (raw : String) (d : String) (src : Json)
    (p : String) (reg2 : Registry)
    (hsig : lookupSig reg c n = some sig)
    (hc : sig.category = c) (hn : sig.name = n)
    (hraw : call_chatgpt gen (build_chat_messages sp sig) = .ok raw)
    (hex : extract_parts raw = .ok (.str d, src))
    (hp : sig.path = .str p)
    (hupd : update_signature_in_memory reg
        { sig with seemore := src, last_updated := .str today } = .ok reg2) :
    test_update_single gen sp base today reg fs c n
      = .ok (reg2, fsWrite fs (pyJoin base p) today,
             [.genCall c n (build_chat_messages sp sig),
              .writeArtifact (pyJoin base p) (d ++ "\n")])
    ∧ wroteRegistry [.genCall c n (build_chat_messages sp sig),
         .writeArtifact (pyJoin base p) (d ++ "\n")] = false
    ∧ writesTo (pyJoin base p) [.genCall c n (build_chat_messages sp sig),
         .writeArtifact (pyJoin base p) (d ++ "\n")] = true
    ∧ lookupSig reg2 c n
        = some { sig with seemore := src, last_updated := .str today } := by
  subst hc
  subst hn
  refine ⟨?_, rfl, ?_, ?_⟩
  · simp only [test_update_single]
    rw [show get_signature reg sig.category sig.name = .ok sig by
      simp [get_signature, hsig]]
    simp only []
    rw [hraw]
    simp only []
    rw [hex]
    simp only []
    rw [hp]
    rw [hp] at hupd
    simp only []
    rw [hupd]
  · simp [writesTo]
  · have hr2 := update_ok_eq hupd
    rw [hr2]
    exact replaceSig_lookup_self hsig

/-- Witness for `c9_single_update_no_registry_write` at a concrete
one-record registry and a generator returning the two-part document. -/
theorem c9_single_update_no_registry_write_witness :
    test_update_single c9Gen "" "/base" "2025-02-03" c9Reg c9Fs "fn" "Foo"
      = .ok ([("fn", [("Foo",
              { c9Sig with seemore := .str "U", last_updated := .str "2025-02-03" })])],
             fsWrite c9Fs (pyJoin "/base" "a/Foo.md") "2025-02-03",
             [.genCall "fn" "Foo" (build_chat_messages "" c9Sig),
              .writeArtifact (pyJoin "/base" "a/Foo.md") ("D" ++ "\n")])
    ∧ wroteRegistry [.genCall "fn" "Foo" (build_chat_messages "" c9Sig),
         .writeArtifact (pyJoin "/base" "a/Foo.md") ("D" ++ "\n")] = false
    ∧ writesTo (pyJoin "/base" "a/Foo.md")
        [.genCall "fn" "Foo" (build_chat_messages "" c9Sig),
         .writeArtifact (pyJoin "/base" "a/Foo.md") ("D" ++ "\n")] = true
    ∧ lookupSig [("fn", [("Foo",
          { c9Sig with seemore := .str "U", last_updated := .str "2025-02-03" })])]
        "fn" "Foo"
        = some { c9Sig with seemore := .str "U", last_updated := .str "2025-02-03" } :=
  c9_single_update_no_registry_write c9Gen "" "/base" "2025-02-03" c9Reg c9Fs
    "fn" "Foo" c9Sig
    "[\x7b\"documentation\":\"D\"\x7d,\x7b\"source\":\"U\"\x7d]"
    "D" (.str "U") "a/Foo.md"
    [("fn", [("Foo",
      { c9Sig with seemore := .str "U", last_updated := .str "2025-02-03" })])]
    rfl rfl rfl rfl rfl rfl rfl

/-! ## Claim C8: the link-scan utility -/

theorem lookupKv_cons_self (n : String) (v : Json) (rest : List (String × Json)) :
    lookupKv ((n, v) :: rest) n = some v := by
  simp [lookupKv, List.find?_cons, beq_self_eq_true]

theorem lookupKv_cons_ne {n0 n : String} (hne : n0 ≠ n) (v : Json)
    (rest : List (String × Json)) :
    lookupKv ((n0, v) :: rest) n = lookupKv rest n := by
  simp [lookupKv, List.find?_cons, beq_eq_false_iff_ne.mpr hne]

theorem updaterEntries_lookup {docs : List MdDoc} {today : String} :
    ∀ {es es' : List (String × Json)} {n : String} {pj : Json},
      updaterEntries docs today es = .ok es' →
      lookupKv es n = some pj →
      ∃ pj', updaterProps docs today pj = .ok pj'
        ∧ lookupKv es' n = some pj' := by
  intro es
  induction es with
  | nil =>
    intro es' n pj h hl
    simp [lookupKv] at hl
  | cons head rest ih =>
    intro es' n pj h hl
    obtain ⟨n0, p0⟩ := head
    simp only [updaterEntries] at h
    cases hp0 : updaterProps docs today p0 with
    | error e => rw [hp0] at h; exact absurd h (by simp)
    | ok p0' =>
      rw [hp0] at h
      simp only [] at h
      cases hrest : updaterEntries docs today rest with
      | error e => rw [hrest] at h; exact absurd h (by simp)
      | ok rest' =>
        rw [hrest] at h
        simp only [Except.ok.injEq] at h
        subst h
        by_cases hn0 : n0 = n
        · subst hn0
          have hpj : p0 = pj := by
            rw [lookupKv_cons_self] at hl
            exact Option.some_inj.mp hl
          subst hpj
          exact ⟨p0', hp0, by rw [lookupKv_cons_self]⟩
        · rw [lookupKv_cons_ne hn0] at hl
          obtain ⟨pj', h1, h2⟩ := ih hrest hl
          exact ⟨pj', h1, by rw [lookupKv_cons_ne hn0]; exact h2⟩

theorem updater_run_lookup {docs : List MdDoc} {today : String} :
    ∀ {data data' : List (String × Json)} {c : String} {ej : Json},
      updater_run docs today data = .ok data' →
      lookupKv data c = some ej →
      ∃ ej', updaterCat docs today ej = .ok ej'
        ∧ lookupKv data' c = some ej' := by
  intro data
  induction data with
  | nil =>
    intro data' c ej h hl
    simp [lookupKv] at hl
  | cons head rest ih =>
    intro data' c ej h hl
    obtain ⟨c0, e0⟩ := head
    simp only [updater_run] at h
    cases he0 : updaterCat docs today e0 with
    | error e => rw [he0] at h; exact absurd h (by simp)
    | ok e0' =>
      rw [he0] at h
      simp only [] at h
      cases hrest : updater_run docs today rest with
      | error e => rw [hrest] at h; exact absurd h (by simp)
      | ok rest' =>
        rw [hrest] at h
        simp only [Except.ok.injEq] at h
        subst h
        by_cases hc0 : c0 = c
        · subst hc0
          have hej : e0 = ej := by
            rw [lookupKv_cons_self] at hl
            exact Option.some_inj.mp hl
          subst hej
          exact ⟨e0', he0, by rw [lookupKv_cons_self]⟩
        · rw [lookupKv_cons_ne hc0] at hl
          obtain ⟨ej', h1, h2⟩ := ih hrest hl
          exact ⟨ej', h1, by rw [lookupKv_cons_ne hc0]; exact h2⟩

/-- C8: in a completed link-scan run, a record with a non-empty string
`path` whose basename matches exactly one markdown file under the docs
tree gets `seemore` set to the first Markdown link (or, failing that,
first raw URL) of that file's text and gets `last_updated` force-set to
today; a record whose basename matches zero or several files is skipped
and its props object is unchanged. -/
theorem c8_link_scan_contract
    (docs : List MdDoc) (today : String) (data data' : List (String × Json))
    (c n : String) (es kvs : List (String × Json)) (p : String)
    (hrun : updater_run docs today data = .ok data')
    (hc : lookupKv data c = some (.obj es))
    (hn : lookupKv es n = some (.obj kvs))
    (hpath : objGetD kvs "path" .null = .str p)
    (hne : p ≠ "") :
    (∀ d u, docMatches docs (pathName p) = [d] → firstUrl d.text = some u →
      dataProps data' c n
        = some (.obj (objSet (objSet kvs "seemore" (.str u))
            "last_updated" (.str today))))
    ∧ (docMatches docs (pathName p) = [] → dataProps data' c n = some (.obj kvs))
    ∧ (∀ d1 d2 ds, docMatches docs (pathName p) = d1 :: d2 :: ds →
        dataProps data' c n = some (.obj kvs)) := by
  obtain ⟨ej', hcat, hl1⟩ := updater_run_lookup hrun hc
  simp only [updaterCat] at hcat
  cases hes : updaterEntries docs today es with
  | error e =>
    rw [hes] at hcat
    exact Except.noConfusion
      (show (Except.error e : Except Unit Json) = Except.ok ej' from hcat)
  | ok es' =>
    rw [hes] at hcat
    have hej : Json.obj es' = ej' := by
      have h2 : (Except.ok (Json.obj es') : Except Unit Json) = Except.ok ej' := hcat
      injection h2
    subst hej
    obtain ⟨pj', hprops, hl2⟩ := updaterEntries_lookup hes hn
    have hdp : dataProps data' c n = some pj' := by
      simp only [dataProps]
      rw [hl1]
      exact hl2
    have hfalsy : jsonFalsy (.str p) = false := by
      simp [jsonFalsy, beq_eq_false_iff_ne.mpr hne]
    refine ⟨?_, ?_, ?_⟩
    · intro d u hmatch hurl
      have hval : updaterProps docs today (.obj kvs)
          = .ok (.obj (objSet (objSet kvs "seemore" (.str u))
              "last_updated" (.str today))) := by
        simp only [updaterProps]
        rw [hpath, hfalsy]
        simp only []
        rw [hmatch]
        simp only []
        rw [hurl]
        rfl
      have hpj : pj' = .obj (objSet (objSet kvs "seemore" (.str u))
          "last_updated" (.str today)) := by
        have := hprops.symm.trans hval
        simpa using this
      rw [hdp, hpj]
    · intro hmatch
      have hval : updaterProps docs today (.obj kvs) = .ok (.obj kvs) := by
        simp only [updaterProps]
        rw [hpath, hfalsy]
        simp only []
        rw [hmatch]
        rfl
      have hpj : pj' = .obj kvs := by
        have := hprops.symm.trans hval
        simpa using this
      rw [hdp, hpj]
    · intro d1 d2 ds hmatch
      have hval : updaterProps docs today (.obj kvs) = .ok (.obj kvs) := by
        simp only [updaterProps]
        rw [hpath, hfalsy]
        simp only []
        rw [hmatch]
        rfl
      have hpj : pj' = .obj kvs := by
        have := hprops.symm.trans hval
        simpa using this
      rw [hdp, hpj]

/-- Witness for `c8_link_scan_contract`: the unique-match part on `Foo`
(whose basename matches the one doc, containing a Markdown link) and the
zero-match part on `Bar`. -/
theorem c8_link_scan_contract_witness :
    dataProps c8DataAfter "fn" "Foo"
      = some (.obj (objSet (objSet [("path", .str "a/Foo.md"), ("seemore", .str "old")]
          "seemore" (.str "http://ex.com/a")) "last_updated" (.str "2025-02-03")))
    ∧ dataProps c8DataAfter "fn" "Bar" = some (.obj [("path", .str "b/Bar.md")]) :=
  ⟨(c8_link_scan_contract [c8Doc] "2025-02-03" c8Data c8DataAfter "fn" "Foo"
      [("Foo", .obj [("path", .str "a/Foo.md"), ("seemore", .str "old")]),
       ("Bar", .obj [("path", .str "b/Bar.md")])]
      [("path", .str "a/Foo.md"), ("seemore", .str "old")] "a/Foo.md"
      rfl rfl rfl rfl (by decide)).1 c8Doc "http://ex.com/a" rfl rfl,
   (c8_link_scan_contract [c8Doc] "2025-02-03" c8Data c8DataAfter "fn" "Bar"
      [("Foo", .obj [("path", .str "a/Foo.md"), ("seemore", .str "old")]),
       ("Bar", .obj [("path", .str "b/Bar.md")])]
      [("path", .str "b/Bar.md")] "b/Bar.md"
      rfl rfl rfl rfl (by decide)).2.1 rfl⟩

/-! ## Claim C6: load/save round-trip -/

/-- C6 (counterexample): loading fills in defaults, so saving an input
record `{}` produces a record with all seven keys — the key set (and the
`visible` field value) of the output differs from the input, refuting
"for every registry file". -/
theorem c6_default_fill_breaks_roundtrip :
    get3 (save_serialized (load_all_signatures [("c", .obj [("A", .obj [])])]))
        "c" "A" "visible" = some (.bool false)
    ∧ get3 (Json.obj [("c", .obj [("A", .obj [])])]) "c" "A" "visible" = none :=
  ⟨rfl, rfl⟩

/-- `lookupKv` of a default-filled record agrees with the source object
whenever the source object's key set is exactly the seven keys. -/
theorem to_dict_from_dict_lookup {kvs : List (String × Json)} {c n : String}
    (hsub : ∀ k ∈ kvs.map Prod.fst, k ∈ sevenKeys)
    (hsup : ∀ k ∈ sevenKeys, k ∈ kvs.map Prod.fst) :
    ∀ k, lookupKv (Signature.to_dict (Signature.from_dict c n (.obj kvs))) k
      = lookupKv kvs k := by
  intro k
  by_cases hk : k ∈ sevenKeys
  · have hmem : k ∈ kvs.map Prod.fst := hsup k hk
    simp only [sevenKeys, List.mem_cons, List.not_mem_nil, or_false] at hk
    rcases hk with rfl | rfl | rfl | rfl | rfl | rfl | rfl
    · exact objGetD_of_mem kvs "visible" (.bool false) hmem
    · exact objGetD_of_mem kvs "declaration" (.str "") hmem
    · exact objGetD_of_mem kvs "seemore" (.str "") hmem
    · exact objGetD_of_mem kvs "seealso" (.str "") hmem
    · exact objGetD_of_mem kvs "deprecated" (.str "") hmem
    · exact objGetD_of_mem kvs "last_updated" (.str "") hmem
    · exact objGetD_of_mem kvs "path" (.str "") hmem
  · have h1 : lookupKv (Signature.to_dict (Signature.from_dict c n (.obj kvs))) k
        = none := by
      apply lookupKv_eq_none
      intro hm
      exact hk (by
        rw [show (Signature.to_dict (Signature.from_dict c n (.obj kvs))).map Prod.fst
            = sevenKeys from rfl] at hm
        exact hm)
    have h2 : lookupKv kvs k = none :=
      lookupKv_eq_none kvs k (fun hm => hk (hsub k hm))
    rw [h1, h2]

theorem loadEntries_all_obj {c : String} :
    ∀ {es : List (String × Json)},
      (∀ qr ∈ es, qr.2.isObj = true) →
      load_all_signatures.loadEntries c es
        = es.map (fun qr => (qr.1, Signature.from_dict c qr.1 qr.2)) := by
  intro es
  induction es with
  | nil => intro h; rfl
  | cons head rest ih =>
    intro h
    obtain ⟨n, props⟩ := head
    have hobj : props.isObj = true := h (n, props) (by simp)
    have hrest := ih (fun qr hq => h qr (List.mem_cons_of_mem _ hq))
    cases props with
    | obj kvs =>
      simp only [load_all_signatures.loadEntries, List.map_cons]
      rw [hrest]
    | null => simp [Json.isObj] at hobj
    | bool b => simp [Json.isObj] at hobj
    | num i => simp [Json.isObj] at hobj
    | str s => simp [Json.isObj] at hobj
    | arr xs => simp [Json.isObj] at hobj

theorem load_all_obj :
    ∀ {data : List (String × Json)},
      (∀ pr ∈ data, pr.2.isObj = true) →
      load_all_signatures data
        = data.map (fun pr =>
            (pr.1, load_all_signatures.loadEntries pr.1 pr.2.entries)) := by
  intro data
  induction data with
  | nil => intro h; rfl
  | cons head rest ih =>
    intro h
    obtain ⟨c, entries⟩ := head
    have hobj : entries.isObj = true := h (c, entries) (by simp)
    have hrest := ih (fun pr hp => h pr (List.mem_cons_of_mem _ hp))
    cases entries with
    | obj es =>
      simp only [load_all_signatures, List.map_cons]
      rw [hrest]
      rfl
    | null => simp [Json.isObj] at hobj
    | bool b => simp [Json.isObj] at hobj
    | num i => simp [Json.isObj] at hobj
    | str s => simp [Json.isObj] at hobj
    | arr xs => simp [Json.isObj] at hobj

/-- Normal form of save-after-load on a well-formed file. -/
theorem save_load_normal {data : List (String × Json)} (hwf : fileWF data) :
    save_serialized (load_all_signatures data)
      = Json.obj (data.map (fun pr =>
          (pr.1, Json.obj (pr.2.entries.map (fun qr =>
            (qr.1, Json.obj (Signature.from_dict pr.1 qr.1 qr.2).to_dict)))))) := by
  have hobj : ∀ pr ∈ data, pr.2.isObj = true := fun pr h => (hwf pr h).1
  rw [load_all_obj hobj]
  simp only [save_serialized, List.map_map]
  congr 1
  apply List.map_congr_left
  intro pr hpr
  simp only [Function.comp]
  rw [loadEntries_all_obj (fun qr hq => ((hwf pr hpr).2 qr hq).1)]
  rw [List.map_map]
  rfl

theorem get?_obj_keyed (g : String × Json → Json) (l : List (String × Json))
    (c : String) :
    (Json.obj (l.map (fun pr => (pr.1, g pr)))).get? c
      = (l.find? (fun pr => pr.1 == c)).map (fun pr => g pr) := by
  simp only [Json.get?, Json.entries, lookupKv]
  rw [find?_map_keyed]
  cases l.find? (fun pr => pr.1 == c) <;> rfl

/-- C6 (amended): for every registry file whose categories are objects
and whose record objects carry exactly the seven attribute keys, loading
then saving preserves the top-level key list, every category's key list,
and every record field value. -/
theorem c6_roundtrip_exact_records (data : List (String × Json))
    (hwf : fileWF data) :
    (save_serialized (load_all_signatures data)).keys = (Json.obj data).keys
    ∧ (∀ c ec es', (Json.obj data).get? c = some ec →
        (save_serialized (load_all_signatures data)).get? c = some es' →
        es'.keys = ec.keys)
    ∧ (∀ c n k, get3 (save_serialized (load_all_signatures data)) c n k
        = get3 (Json.obj data) c n k) := by
  have hnorm := save_load_normal hwf
  refine ⟨?_, ?_, ?_⟩
  · rw [hnorm]
    simp only [Json.keys, Json.entries, List.map_map]
    exact List.map_congr_left fun a _ => rfl
  · intro c ec es' h1 h2
    rw [hnorm, get?_obj_keyed] at h2
    have h1' : (data.find? (fun pr => pr.1 == c)).map (fun pr => pr.2)
        = some ec := h1
    cases hf : data.find? (fun pr => pr.1 == c) with
    | none => rw [hf] at h1'; simp at h1'
    | some pr =>
      rw [hf] at h1' h2
      have hec : pr.2 = ec := by simpa using h1'
      have hes : Json.obj (pr.2.entries.map (fun qr =>
          (qr.1, Json.obj (Signature.from_dict pr.1 qr.1 qr.2).to_dict))) = es' := by
        simpa using h2
      rw [← hec, ← hes]
      simp only [Json.keys, Json.entries, List.map_map]
      exact List.map_congr_left fun a _ => rfl
  · intro c n k
    rw [hnorm]
    simp only [get3]
    rw [get?_obj_keyed]
    have hrhs : (Json.obj data).get? c
        = (data.find? (fun pr => pr.1 == c)).map (fun pr => pr.2) := rfl
    rw [hrhs]
    cases hf : data.find? (fun pr => pr.1 == c) with
    | none => rfl
    | some pr =>
      have hpr := List.mem_of_find?_eq_some hf
      show (((Json.obj (pr.2.entries.map (fun qr =>
          (qr.1, Json.obj (Signature.from_dict pr.1 qr.1 qr.2).to_dict)))).get? n).bind
            (fun r => r.get? k))
        = ((pr.2.get? n).bind (fun r => r.get? k))
      rw [get?_obj_keyed]
      have hrhs2 : pr.2.get? n
          = (pr.2.entries.find? (fun qr => qr.1 == n)).map (fun qr => qr.2) := rfl
      rw [hrhs2]
      cases hf2 : pr.2.entries.find? (fun qr => qr.1 == n) with
      | none => rfl
      | some qr =>
        have hqr := List.mem_of_find?_eq_some hf2
        obtain ⟨hobj, hsub, hsup⟩ := (hwf pr hpr).2 qr hqr
        show lookupKv (Signature.to_dict (Signature.from_dict pr.1 qr.1 qr.2)) k
          = lookupKv qr.2.entries k
        cases hq2 : qr.2 with
        | obj kvs =>
          rw [hq2] at hsub hsup
          exact to_dict_from_dict_lookup hsub hsup k
        | null => rw [hq2] at hobj; simp [Json.isObj] at hobj
        | bool b => rw [hq2] at hobj; simp [Json.isObj] at hobj
        | num i => rw [hq2] at hobj; simp [Json.isObj] at hobj
        | str s => rw [hq2] at hobj; simp [Json.isObj] at hobj
        | arr xs => rw [hq2] at hobj; simp [Json.isObj] at hobj

/-- Witness for `c6_roundtrip_exact_records` on a one-record registry
with exactly the seven keys. -/
theorem c6_roundtrip_exact_records_witness :
    (save_serialized (load_all_signatures c6Data)).keys = (Json.obj c6Data).keys
    ∧ get3 (save_serialized (load_all_signatures c6Data)) "fn" "Foo" "path"
        = get3 (Json.obj c6Data) "fn" "Foo" "path" :=
  ⟨(c6_roundtrip_exact_records c6Data (by decide)).1,
   (c6_roundtrip_exact_records c6Data (by decide)).2.2 "fn" "Foo" "path"⟩
